import Mathlib

/-!
# kubectl-kcl: the `apply` sub command (`pkg/options/apply.go`)

A shallow embedding of `ApplyOptions.Run`, `ApplyOptions.getCliRuntime` and
`ApplyOptions.reader`, together with the parts of the Go standard library they
drive (`bufio.Scanner` with the default `ScanLines` split function,
`bufio.Reader.Read`, `io.Pipe`, `bytes.Buffer.ReadFrom`).

The collaborators that live outside the file (the cluster client, the KRM
pipeline engine, standard input, the file system) are fields of a `World`.
-/

namespace KubectlKcl

/-- A byte of a Go `[]byte`. -/
abbrev Byte := UInt8

/-- A Go `[]byte` value, seen as the sequence of its elements. -/
abbrev Bytes := List Byte

/-- A non-nil Go `error`, identified with its message (`err.Error()`). -/
abbrev Error := String

/-! ## `bufio.Scanner` (Go standard library) -/

/-- The byte `'\n'`. -/
def newline : Byte := 10

/-- The byte `'\r'`. -/
def carriageReturn : Byte := 13

/-- Go `bufio.MaxScanTokenSize = 64 * 1024`, the default `maxTokenSize` of a scanner. -/
def MaxScanTokenSize : Nat := 64 * 1024

/-- Go `bufio.startBufSize`, the size of the first buffer a scanner allocates. -/
def startBufSize : Nat := 4096

/-- Go `bufio.defaultBufSize`, the buffer size of `bufio.NewReader`. -/
def defaultBufSize : Nat := 4096

/-- Go `io.EOF`. -/
def EOF : Error := "EOF"

/-- Go `bytes.IndexByte(data, c)`: the index of the first `c`, `none` for `-1`. -/
def IndexByte : Bytes → Byte → Option Nat
  | [], _ => none
  | b :: rest, c =>
    if b = c then some 0
    else
      match IndexByte rest c with
      | some i => some (i + 1)
      | none => none

/-- Go `bufio.dropCR`: drops one terminal `'\r'` from the data. -/
def dropCR (data : Bytes) : Bytes :=
  if 0 < data.length ∧ data.getLast? = some carriageReturn then
    data.take (data.length - 1)
  else data

/-- Go `bufio.ScanLines(data, atEOF)`; the result is `(advance, token)`, with
`token = none` for a nil token (the error result of `ScanLines` is always nil). -/
def ScanLines (data : Bytes) (atEOF : Bool) : Nat × Option Bytes :=
  if atEOF ∧ data.length = 0 then (0, none)
  else
    match IndexByte data newline with
    | some i => (i + 1, some (dropCR (data.take i)))
    | none =>
      if atEOF then (data.length, some (dropCR data))
      else (0, none)

/-- The fields of a `bufio.Scanner` that the first call of `Scan` works on.
`start` stays `0` until the first token is produced, so the buffered data
`buf[start:end]` is `data` and `len(buf)` is `bufLen`; `src` is what the
underlying reader has not delivered yet. -/
structure Scanner where
  /-- The bytes of the underlying reader that were not read yet. -/
  src : Bytes
  /-- Go `len(s.buf)`. -/
  bufLen : Nat
  /-- Go `s.buf[s.start:s.end]`. -/
  data : Bytes
  /-- Go `s.err`, the sticky error (`io.EOF` included). -/
  err : Option Error
  deriving DecidableEq, Repr

/-- Go `bufio.NewScanner(r)` over a reader that will deliver `src`. -/
def NewScanner (src : Bytes) : Scanner :=
  { src := src, bufLen := 0, data := [], err := none }

/-- One `Read(p)` with `len(p) = space > 0` on a stream holding `src`: the
bytes delivered, what is left, and the error (`io.EOF` at the end of input). -/
def streamRead (src : Bytes) (space : Nat) : Bytes × Bytes × Option Error :=
  if src.length = 0 then ([], [], some EOF)
  else (src.take space, src.drop space, none)

/-- The loop of Go `(*Scanner).Scan` for the first token, one iteration per
unit of fuel. The result is `some token` when `Scan` returns `true` (the token
is what `scanner.Bytes()` then returns), `none` when it returns `false`. -/
def scanLoop : Nat → Scanner → Option Bytes
  | 0, _ => none
  | fuel + 1, s =>
    -- See if we can get a token with what we already have.
    let tok : Option Bytes :=
      if 0 < s.data.length ∨ s.err.isSome then (ScanLines s.data s.err.isSome).2
      else none
    match tok with
    | some token => some token
    | none =>
      -- If we've already hit EOF or an I/O error, we are done.
      if s.err.isSome then none
      -- Is the buffer full? If so, resize.
      else if s.data.length = s.bufLen ∧ MaxScanTokenSize ≤ s.bufLen then none
      else
        let newLen :=
          if s.data.length = s.bufLen then
            min (if s.bufLen * 2 = 0 then startBufSize else s.bufLen * 2) MaxScanTokenSize
          else s.bufLen
        -- Finally we can read some input.
        let r := streamRead s.src (newLen - s.data.length)
        scanLoop fuel
          { src := r.2.1, bufLen := newLen, data := s.data ++ r.1, err := r.2.2 }

/-- Go `scanner.Scan()` followed by `scanner.Bytes()` on a fresh scanner: every
iteration of the loop that does not return consumes input or records the end
of input, so `len(src) + 2` iterations are enough. -/
def Scan (s : Scanner) : Option Bytes :=
  scanLoop (s.src.length + 2) s

/-! ## `bufio.Reader` over an `os.File` (Go standard library) -/

/-- Go `internal/poll.maxRW = 1 << 30`: the most bytes one `Read` of an
`os.File` asks the system for (`os.newFile` makes every file a stream). -/
def maxRW : Nat := 1 <<< 30

/-- A file that `os.Open` opened: the size `Stat` reports, the bytes reading
delivers, and the failures the two system calls made on it can report. The two
are independent: for a regular file the size is the number of the bytes, for
files such as those of procfs and sysfs, or a named pipe, it is not. -/
structure File where
  /-- Go `stat.Size()`. -/
  size : Nat
  /-- The bytes reading the file from its start delivers. -/
  content : Bytes
  /-- The error of `file.Stat()`, if it fails. -/
  statErr : Option Error
  /-- The error of reading the file, if it fails. -/
  readErr : Option Error
  deriving DecidableEq, Repr

/-- Go `file.Stat()` followed by `stat.Size()`. -/
def File.Stat (f : File) : Except Error Nat :=
  match f.statErr with
  | some err => .error err
  | none => .ok f.size

/-- Go `(*os.File).Read(p)` with `len(p) = n` on a file just opened: the bytes
stored into `p` and the error. It is one read of the system, for at most
`maxRW` bytes (`p = p[:maxRW]`), which delivers what the file holds up to that
many; no byte at all is `io.EOF`. -/
def File.Read (f : File) (n : Nat) : Bytes × Option Error :=
  match f.readErr with
  | some err => ([], some err)
  | none =>
    if n = 0 then ([], none)
    else if f.content.length = 0 then ([], some EOF)
    else (f.content.take (min n maxRW), none)

/-- Go `bufio.NewReader(file).Read(p)` with `len(p) = n`, the first read of a
fresh reader (`b.r = b.w = 0`, `b.err = nil`, `len(b.buf) = defaultBufSize`):
the bytes stored into `p` and the error. -/
def bufioReaderRead (f : File) (n : Nat) : Bytes × Option Error :=
  -- n == 0: nothing is buffered, the result is `0, b.readErr()`, which is nil
  if n = 0 then ([], none)
  -- Large read, empty buffer: read directly into p.
  else if defaultBufSize ≤ n then f.Read n
  else
    -- One read into the internal buffer, then copy as much as we can.
    let r := f.Read defaultBufSize
    if r.1.length = 0 then ([], r.2)
    else (r.1.take n, none)

/-! ## The collaborators of `Run` -/

/-- Modelled from the spec: the type of `KubeCliRuntime.Flags` is declared in
`pkg/client`, which is not among the sources; `Run` only hands the value to
`Apply`, so it is an uninterpreted token. -/
structure ConfigFlags where
  /-- The identity of the flag set. -/
  token : Nat
  deriving DecidableEq, Repr

/-- Modelled from the spec: `client.KubeCliRuntime` is declared in `pkg/client`,
which is not among the sources; these are the fields `apply.go` reads and
writes (the scoping options of the spec, and `Flags`). -/
structure KubeCliRuntime where
  /-- Go `cli.Flags`. -/
  Flags : ConfigFlags
  /-- Go `cli.Namespace`. -/
  Namespace : String
  /-- Go `cli.Selector`. -/
  Selector : String
  /-- Go `cli.FieldSelector`. -/
  FieldSelector : String
  deriving DecidableEq, Repr

/-- What the pipeline engine does next with the writer end it was given. -/
inductive EngineAction where
  /-- The engine calls `Write(p)` on its output sink. -/
  | Write (p : Bytes)
  /-- The engine works without touching its output sink. -/
  | Idle
  /-- Go `pipeline.Execute()` returns `err`. -/
  | Return (err : Option Error)
  deriving DecidableEq, Repr

/-- The environment of one invocation of `Run`. -/
structure World where
  /-- Go `client.NewKubeCliRuntime()`. -/
  NewKubeCliRuntime : KubeCliRuntime
  /-- Go `cli.GetGeneralResources(&buf)`: the bytes written to `buf`, and the error. -/
  GetGeneralResources : KubeCliRuntime → Bytes × Option Error
  /-- Go `cli.Apply(flags, &input)`: the error. -/
  Apply : KubeCliRuntime → ConfigFlags → Bytes → Option Error
  /-- Go `kio.NewPipeline(reader, pw, true).Execute()` for a reader holding the
  given bytes: the sequence of the engine's actions, the `k`-th being performed
  once the ones before it are complete. Nothing after a `Return` happens. -/
  Execute : Bytes → Nat → EngineAction
  /-- The bytes standard input delivers before its end. -/
  Stdin : Bytes
  /-- Go `os.Open(path)`. -/
  Open : String → Except Error File

/-! ## `ApplyOptions` -/

/-- ApplyOptions is the options for the apply sub command. -/
structure ApplyOptions where
  /-- InputPath is the -f flag. -/
  InputPath : String
  /-- OutputPath is the -o flag. -/
  OutputPath : String
  /-- Namespace is the -n flag --namespace. -/
  Namespace : String
  /-- Selector is the -l flag --selector. -/
  Selector : String
  /-- FieldSelector is the --field-selector flag. -/
  FieldSelector : String
  deriving DecidableEq, Repr

/-- Go `NewApplyOptions`: the zero value of `ApplyOptions`. -/
def NewApplyOptions : ApplyOptions :=
  { InputPath := "", OutputPath := "", Namespace := "", Selector := "", FieldSelector := "" }

/-- Go `(*ApplyOptions).getCliRuntime`. -/
def ApplyOptions.getCliRuntime (w : World) (o : ApplyOptions) : KubeCliRuntime :=
  let cliRuntime := w.NewKubeCliRuntime
  let cliRuntime := { cliRuntime with Namespace := o.Namespace }
  let cliRuntime := { cliRuntime with Selector := o.Selector }
  let cliRuntime := { cliRuntime with FieldSelector := o.FieldSelector }
  cliRuntime

/-- Go `(*ApplyOptions).Validate`. -/
def ApplyOptions.Validate (_o : ApplyOptions) : Option Error := none

/-- The first result of `reader()`, which `Run` discards. -/
inductive ReaderHandle where
  /-- Go `os.Stdin`. -/
  | Stdin
  /-- Go `bufio.NewReader(file)` for the file opened at the path. -/
  | NewReader (path : String)
  deriving DecidableEq, Repr

/-- Go `(*ApplyOptions).reader`. -/
def ApplyOptions.reader (w : World) (o : ApplyOptions) : Except Error (ReaderHandle × Bytes) :=
  if o.InputPath = "-" then
    match Scan (NewScanner w.Stdin) with
    | none => .error "input scan err"
    | some line => .ok (.Stdin, line)
  else
    match w.Open o.InputPath with
    | .error err => .error err
    | .ok file =>
      match file.Stat with
      | .error err => .error err
      | .ok size =>
        -- bs := make([]byte, stat.Size()); the count `Read` returns is dropped
        let r := bufioReaderRead file size
        match r.2 with
        | some err => .error err
        | none => .ok (.NewReader o.InputPath, r.1 ++ List.replicate (size - r.1.length) 0)

/-! ## `Run`: the calls it makes and the pipe between its two tasks -/

/-- What `Run` and the task it starts do to their collaborators, as observed
from outside. -/
inductive Event where
  /-- Go `cli.GetGeneralResources(&buf)` was called. -/
  | GetGeneralResources (cli : KubeCliRuntime)
  /-- Go `o.reader()` was called. -/
  | reader
  /-- Go `kio.NewPipeline(reader, pw, true).Execute()` was called, `reader`
  holding `input`. -/
  | Execute (input : Bytes)
  /-- The engine called `pw.Write(p)`. -/
  | Write (p : Bytes)
  /-- Go `pw.Close()` was called. -/
  | Close
  /-- Go `cli.Apply(flags, &input)` was called, `input` holding `payload`. -/
  | Apply (cli : KubeCliRuntime) (flags : ConfigFlags) (payload : Bytes)
  /-- Go `logger.GetLogger().Errorf(...)` printed `msg`. -/
  | Errorf (msg : String)
  deriving DecidableEq, Repr

/-- Where the calling task of `Run` is once the pipe exists. -/
inductive MainPc where
  /-- Inside `input.ReadFrom(pr)`. -/
  | ReadFrom
  /-- Go `Run` has returned `err`. -/
  | Returned (err : Option Error)
  deriving DecidableEq, Repr

/-- The state of the two tasks of `Run` from `io.Pipe()` on. -/
structure State where
  /-- The number of actions the engine has performed. -/
  pos : Nat
  /-- The bytes of a `pw.Write` in progress that no `pr.Read` has taken yet. -/
  pending : Option Bytes
  /-- All the bytes passed to `pw.Write` so far. -/
  written : Bytes
  /-- The error a `pr.Read` reports once the writer end is closed (`io.EOF`
  after `pw.Close()`); `none` while the writer end is open. -/
  closed : Option Error
  /-- The content of the buffer `input`. -/
  input : Bytes
  /-- The calling task. -/
  main : MainPc
  /-- The events so far, oldest first. -/
  trace : List Event
  deriving DecidableEq, Repr

/-- Lines 64 to 73 of `apply.go`: what `Run` does with the error of
`input.ReadFrom(pr)` and the content of `input`; the events, and the result of `Run`. -/
def afterReadFrom (w : World) (cli : KubeCliRuntime) (err : Option Error) (input : Bytes) :
    List Event × Option Error :=
  match err with
  | some err => ([.Errorf ("io reader err: " ++ err)], some err)
  | none =>
    match w.Apply cli cli.Flags input with
    | some err => ([.Apply cli cli.Flags input, .Errorf ("cli apply err: " ++ err)], some err)
    | none => ([.Apply cli cli.Flags input], none)

/-- The body of the task `go func() { ... }()` at the `k`-th action of the
engine, the pipe having no write in progress: a write blocks the task until
the bytes are taken; when `Execute` returns, an error is logged and the
deferred `pw.Close()` runs. -/
def producerStep (w : World) (n : Bytes) (s : State) : State :=
  match w.Execute n s.pos with
  | .Write p =>
    { s with pos := s.pos + 1, pending := some p, written := s.written ++ p,
             trace := s.trace ++ [.Write p] }
  | .Idle => { s with pos := s.pos + 1 }
  | .Return none =>
    { s with pos := s.pos + 1, closed := some EOF, trace := s.trace ++ [.Close] }
  | .Return (some err) =>
    { s with pos := s.pos + 1, closed := some EOF,
             trace := s.trace ++ [.Errorf ("pipeline execute err: " ++ err), .Close] }

/-- One step of the two tasks. The pipe of `io.Pipe` has no buffer: while a
write is in progress only the reading task can move, and each `pr.Read` of
`input.ReadFrom` takes as many of the pending bytes as fit in the `space` it
offers; with no write in progress and the writer end open the reading task is
blocked and the engine moves; once the writer end is closed `pr.Read` reports
the close error, `ReadFrom` returns (`nil` for `io.EOF`) and `Run` goes on to
`Apply`. `none`: `Run` has returned. -/
def step (w : World) (cli : KubeCliRuntime) (n : Bytes) (space : Nat) (s : State) :
    Option State :=
  match s.main with
  | .Returned _ => none
  | .ReadFrom =>
    match s.pending with
    | some p =>
      let k := min space p.length
      some { s with input := s.input ++ p.take k,
                    pending := if (p.drop k).length = 0 then none else some (p.drop k) }
    | none =>
      match s.closed with
      | some e =>
        let r := afterReadFrom w cli (if e = EOF then none else some e) s.input
        some { s with main := .Returned r.2, trace := s.trace ++ r.1 }
      | none => some (producerStep w n s)

/-- The steps the two tasks can take: `pr.Read` is offered any positive space. -/
def Step (w : World) (cli : KubeCliRuntime) (n : Bytes) (s t : State) : Prop :=
  ∃ space, 0 < space ∧ step w cli n space s = some t

/-- The state right after `go func() { ... }()`: the pipe is empty and open,
the engine has been started on the combined stream `n`. -/
def initState (n : Bytes) (trace : List Event) : State :=
  { pos := 0, pending := none, written := [], closed := none, input := [],
    main := .ReadFrom, trace := trace ++ [.Execute n] }

/-- The states an execution of the two tasks can be in. -/
inductive Reachable (w : World) (cli : KubeCliRuntime) (n : Bytes) (trace : List Event) :
    State → Prop where
  /-- The initial state. -/
  | init : Reachable w cli n trace (initState n trace)
  /-- One more step. -/
  | next {s t : State} : Reachable w cli n trace s → Step w cli n s t →
      Reachable w cli n trace t

/-- The space of the deterministic schedule: each `pr.Read` takes the whole
pending write. -/
def fullSpace (s : State) : Nat :=
  match s.pending with
  | some p => p.length + 1
  | none => 1

/-- At most `fuel` steps of the two tasks, each read taking the whole pending write. -/
def runPipe (w : World) (cli : KubeCliRuntime) (n : Bytes) : Nat → State → State
  | 0, s => s
  | fuel + 1, s =>
    match step w cli n (fullSpace s) s with
    | none => s
    | some t => runPipe w cli n fuel t

/-- How an execution of `Run` ends. -/
inductive Outcome where
  /-- Go `Run` returned `err`. -/
  | Returned (err : Option Error)
  /-- Go `Run` is still inside `input.ReadFrom(pr)` when the fuel is used up. -/
  | Blocked
  deriving DecidableEq, Repr

/-- The observable result of an execution of `Run`. -/
structure RunResult where
  /-- The events, oldest first. -/
  trace : List Event
  /-- The outcome. -/
  outcome : Outcome
  deriving DecidableEq, Repr

/-- The result seen in a state of the two tasks. -/
def State.result (s : State) : RunResult :=
  { trace := s.trace,
    outcome := match s.main with
      | .ReadFrom => .Blocked
      | .Returned err => .Returned err }

/-- The events of lines 40 to 52 of `apply.go` when both the fetch and the read succeed. -/
def setupTrace (cli : KubeCliRuntime) : List Event :=
  [.GetGeneralResources cli, .reader]

/-- Go `(*ApplyOptions).Run`, the two tasks being given `fuel` steps. -/
def ApplyOptions.Run (w : World) (o : ApplyOptions) (fuel : Nat) : RunResult :=
  let cli := o.getCliRuntime w
  let buf := w.GetGeneralResources cli
  match buf.2 with
  | some err =>
    { trace := [.GetGeneralResources cli, .Errorf ("get general resource err: " ++ err)],
      outcome := .Returned (some err) }
  | none =>
    match o.reader w with
    | .error err =>
      { trace := [.GetGeneralResources cli, .reader, .Errorf ("read kcl code err: " ++ err)],
        outcome := .Returned (some err) }
    | .ok (_, bs) =>
      let n := buf.1 ++ bs
      (runPipe w cli n fuel (initState n (setupTrace cli))).result

/-! ## Vocabulary of the statements -/

/-- The bytes before the first `'\n'` (all of them when there is none). -/
def firstLine (s : Bytes) : Bytes :=
  s.takeWhile (fun b => decide (b ≠ newline))

/-- What the first `Scan` of a fresh scanner yields on the input `s`, in closed form. -/
def scanSpec (s : Bytes) : Option Bytes :=
  if s.length = 0 then none
  else if (firstLine s).length < MaxScanTokenSize then some (dropCR (firstLine s))
  else none

/-- The event is a call of `GetGeneralResources`. -/
def Event.isFetch : Event → Bool
  | .GetGeneralResources _ => true
  | _ => false

/-- The event is a call of `reader()`. -/
def Event.isReader : Event → Bool
  | .reader => true
  | _ => false

/-- The event is a call of the engine's `Execute`. -/
def Event.isExecute : Event → Bool
  | .Execute _ => true
  | _ => false

/-- The event is a call of `Apply`. -/
def Event.isApply : Event → Bool
  | .Apply _ _ _ => true
  | _ => false

/-- The events of one action of the engine and of what the task does after it. -/
def actionEvents : EngineAction → List Event
  | .Write p => [.Write p]
  | .Idle => []
  | .Return none => [.Close]
  | .Return (some err) => [.Errorf ("pipeline execute err: " ++ err), .Close]

/-- The events of the first `k` actions of the engine. -/
def engineEvents (acts : Nat → EngineAction) : Nat → List Event
  | 0 => []
  | k + 1 => engineEvents acts k ++ actionEvents (acts k)

/-- The bytes an action passes to `pw.Write`. -/
def actionBytes : EngineAction → Bytes
  | .Write p => p
  | _ => []

/-- The bytes the first `k` actions of the engine pass to `pw.Write`, in order. -/
def writesBefore (acts : Nat → EngineAction) : Nat → Bytes
  | 0 => []
  | k + 1 => writesBefore acts k ++ actionBytes (acts k)

/-- The bytes of the `Write` events of a trace, in order. -/
def writePayloads : List Event → Bytes
  | [] => []
  | .Write p :: rest => p ++ writePayloads rest
  | _ :: rest => writePayloads rest

/-- The engine's `Execute` returns `r` as its `k`-th action (and not before). -/
def ReturnsAt (acts : Nat → EngineAction) (k : Nat) (r : Option Error) : Prop :=
  acts k = .Return r ∧ ∀ j, j < k → ∀ e, acts j ≠ .Return e

/-- The engine's `Execute` never returns, so the writer end is never closed. -/
def NeverReturns (acts : Nat → EngineAction) : Prop :=
  ∀ k e, acts k ≠ .Return e

/-- What holds in every state of the two tasks (`tr` are the events before the
pipe was made). -/
structure Inv (w : World) (cli : KubeCliRuntime) (n : Bytes) (tr : List Event)
    (s : State) : Prop where
  /-- The bytes written are those of the actions performed. -/
  written_eq : s.written = writesBefore (w.Execute n) s.pos
  /-- The bytes read and the bytes pending are the bytes written. -/
  drained : s.input ++ s.pending.getD [] = s.written
  /-- The writer end is closed by `pw.Close()` only, after `Execute` returned,
  no write being in progress. -/
  closed_eof : ∀ e, s.closed = some e →
    e = EOF ∧ s.pending = none ∧ ∃ r, 0 < s.pos ∧ w.Execute n (s.pos - 1) = .Return r
  /-- Nothing happens in the engine's task after `Execute` returned. -/
  returned_last : ∀ k r, k < s.pos → w.Execute n k = .Return r →
    k + 1 = s.pos ∧ s.closed = some EOF
  /-- The events are those of the engine, then those of `Run` after `ReadFrom`. -/
  trace_eq : s.trace = tr ++ [.Execute n] ++ engineEvents (w.Execute n) s.pos ++
    (match s.main with
      | .ReadFrom => []
      | .Returned _ => (afterReadFrom w cli none s.input).1)
  /-- Go `Run` returns what `Apply` returns, the writer end being closed. -/
  main_ret : ∀ r, s.main = .Returned r →
    s.closed = some EOF ∧ r = (afterReadFrom w cli none s.input).2

/-- The steps the deterministic schedule still needs when `Execute` returns as
its `k`-th action. -/
def stepsLeft (k : Nat) (s : State) : Nat :=
  match s.main with
  | .Returned _ => 0
  | .ReadFrom => 2 * (k + 1 - s.pos) + (if s.pending.isSome then 1 else 0) + 1

/-! ## Concrete collaborators for the examples -/

/-- An engine that echoes its input: one write of all of it, then a normal return. -/
def echoEngine (n : Bytes) (k : Nat) : EngineAction :=
  if k = 0 then .Write n else .Return none

/-- An engine that writes the first byte of its input and fails. -/
def failingEngine (n : Bytes) (k : Nat) : EngineAction :=
  if k = 0 then .Write (n.take 1) else .Return (some "boom")

/-- An engine that writes its input and then never returns. -/
def stuckEngine (n : Bytes) (k : Nat) : EngineAction :=
  if k = 0 then .Write n else .Idle

/-- A world whose cluster snapshot is the bytes 1, 2, 3, whose `Apply` succeeds,
and whose files are `f`, holding the bytes 8, 9, and the empty file `e`. -/
def exampleWorld (stdin : Bytes) (engine : Bytes → Nat → EngineAction) : World :=
  { NewKubeCliRuntime := { Flags := ⟨7⟩, Namespace := "", Selector := "", FieldSelector := "" }
    GetGeneralResources := fun _ => ([1, 2, 3], none)
    Apply := fun _ _ _ => none
    Execute := engine
    Stdin := stdin
    Open := fun path =>
      if path = "f" then .ok { size := 2, content := [8, 9], statErr := none, readErr := none }
      else if path = "e" then .ok { size := 0, content := [], statErr := none, readErr := none }
      else .error "open: no such file or directory" }

/-- The world `exampleWorld` with a cluster fetch that fails after writing one byte. -/
def fetchFailsWorld : World :=
  { exampleWorld [] echoEngine with GetGeneralResources := fun _ => ([1], some "unreachable") }

/-- The world `exampleWorld` with an `Apply` that fails. -/
def applyFailsWorld : World :=
  { exampleWorld [] echoEngine with Apply := fun _ _ _ => some "rejected" }

/-- The options `-f -`: the function configuration comes from standard input. -/
def stdinOptions : ApplyOptions :=
  { NewApplyOptions with InputPath := "-" }

/-- The options `-f f -n ns -l app=x --field-selector a=b`. -/
def fileOptions : ApplyOptions :=
  { InputPath := "f", OutputPath := "", Namespace := "ns", Selector := "app=x",
    FieldSelector := "a=b" }

/-- A file of the kind procfs has: `Stat` reports the size 0, reading delivers
the bytes 8, 9. -/
def procFile : File :=
  { size := 0, content := [8, 9], statErr := none, readErr := none }

/-- A file of the kind sysfs has: `Stat` reports the size 4, reading delivers
the bytes 8, 9. -/
def sysFile : File :=
  { size := 4, content := [8, 9], statErr := none, readErr := none }

/-- A regular file of `maxRW + 4` bytes, all of them `a`. -/
def bigFile : File :=
  { size := maxRW + 4, content := List.replicate (maxRW + 4) 97, statErr := none,
    readErr := none }

/-- A world whose files are `p` (`procFile`), `s` (`sysFile`) and `big` (`bigFile`). -/
def specialFilesWorld : World :=
  { exampleWorld [] echoEngine with
    Open := fun path =>
      if path = "p" then .ok procFile
      else if path = "s" then .ok sysFile
      else if path = "big" then .ok bigFile
      else .error "open: no such file or directory" }

/-- The options `-f p`. -/
def procFileOptions : ApplyOptions :=
  { NewApplyOptions with InputPath := "p" }

/-- The options `-f s`. -/
def sysFileOptions : ApplyOptions :=
  { NewApplyOptions with InputPath := "s" }

/-- The options `-f big`. -/
def bigFileOptions : ApplyOptions :=
  { NewApplyOptions with InputPath := "big" }

/-- The options `-f e`. -/
def emptyFileOptions : ApplyOptions :=
  { NewApplyOptions with InputPath := "e" }

/-- A state of the pipe whose writer end was closed with an error other than `io.EOF`. -/
def brokenPipeState : State :=
  { pos := 1, pending := none, written := [], closed := some "broken", input := [],
    main := .ReadFrom, trace := [] }

/-! ## Theorems -/

/-! ### `bufio.Scanner`: the first `Scan` in closed form -/

theorem IndexByte_some {c : Byte} : ∀ {d : Bytes} {i : Nat}, IndexByte d c = some i →
    i < d.length ∧ ∀ r : Bytes, (d ++ r).takeWhile (fun b => decide (b ≠ c)) = d.take i := by
  intro d
  induction d with
  | nil => intro i h; simp [IndexByte] at h
  | cons b rest ih =>
    intro i h
    unfold IndexByte at h
    by_cases hb : b = c
    · simp only [hb, if_true, Option.some.injEq] at h
      subst h
      simp [hb]
    · simp only [hb, if_false] at h
      cases hr : IndexByte rest c with
      | none => simp [hr] at h
      | some j =>
        simp only [hr, Option.some.injEq] at h
        subst h
        obtain ⟨h1, h2⟩ := ih hr
        refine ⟨by simpa using h1, fun r => ?_⟩
        have h3 := h2 r
        simp only [decide_not] at h3 ⊢
        simp [List.takeWhile, hb, h3]

theorem IndexByte_none {c : Byte} : ∀ {d : Bytes}, IndexByte d c = none →
    ∀ r : Bytes, (d ++ r).takeWhile (fun b => decide (b ≠ c))
      = d ++ r.takeWhile (fun b => decide (b ≠ c)) := by
  intro d
  induction d with
  | nil => intro _ r; simp
  | cons b rest ih =>
    intro h r
    unfold IndexByte at h
    by_cases hb : b = c
    · simp [hb] at h
    · simp only [hb, if_false] at h
      cases hr : IndexByte rest c with
      | some j => simp [hr] at h
      | none =>
        have h3 := ih hr r
        simp only [decide_not] at h3 ⊢
        simp [List.takeWhile, hb, h3]


theorem firstLine_of_index_some {d : Bytes} {i : Nat} (h : IndexByte d newline = some i)
    (r : Bytes) : firstLine (d ++ r) = d.take i ∧ i < d.length :=
  ⟨(IndexByte_some h).2 r, (IndexByte_some h).1⟩

theorem firstLine_of_index_none {d : Bytes} (h : IndexByte d newline = none)
    (r : Bytes) : firstLine (d ++ r) = d ++ firstLine r :=
  IndexByte_none h r

theorem scanSpec_of_index_some {d : Bytes} {i : Nat} (h : IndexByte d newline = some i)
    (r : Bytes) (hd : d.length ≤ MaxScanTokenSize) :
    scanSpec (d ++ r) = some (dropCR (d.take i)) := by
  obtain ⟨h1, h2⟩ := firstLine_of_index_some h r
  have h3 : (d ++ r).length ≠ 0 := by rw [List.length_append]; omega
  have h4 : (List.take i d).length < MaxScanTokenSize := by
    rw [List.length_take]; omega
  simp only [scanSpec, h3, if_false, h1, h4, if_true]

theorem scanLoop_eq : ∀ (fuel : Nat) (s : Scanner),
    s.data.length ≤ s.bufLen → s.bufLen ≤ MaxScanTokenSize →
    (s.err.isSome → s.src = [] ∧ s.data.length < s.bufLen) →
    s.src.length + (if s.err.isSome then 1 else 2) ≤ fuel →
    scanLoop fuel s = scanSpec (s.data ++ s.src) := by
  intro fuel
  induction fuel with
  | zero =>
    intro s _ _ _ h
    split at h <;> omega
  | succ fuel ih =>
    intro s hlen hcap herr hfuel
    obtain ⟨src, bufLen, data, err⟩ := s
    simp only at hlen hcap herr hfuel ⊢
    cases hidx : IndexByte data newline with
    | some i =>
      have hi := (IndexByte_some hidx).1
      have hpos : 0 < data.length := by omega
      have hne : ¬ data.length = 0 := by omega
      rw [scanSpec_of_index_some hidx src (by omega)]
      simp [scanLoop, ScanLines, hidx, hpos, hne]
    | none =>
      cases err with
      | some e =>
        obtain ⟨hsrc, hlt⟩ := herr rfl
        subst hsrc
        by_cases hd : data.length = 0
        · have : data = [] := List.length_eq_zero.mp hd
          subst this
          simp [scanLoop, ScanLines, scanSpec]
        · have hfl := firstLine_of_index_none hidx []
          have hfl2 : firstLine (data ++ []) = data := by
            rw [hfl]; simp [firstLine]
          have h4 : data.length < MaxScanTokenSize := by omega
          have hpos : 0 < data.length := by omega
          simp only [List.append_nil] at hfl2 ⊢
          simp [scanLoop, ScanLines, scanSpec, hidx, hd, hfl2, h4]
      | none =>
        have htok : (if 0 < data.length ∨ (none : Option Error).isSome = true
            then (ScanLines data (none : Option Error).isSome).2 else none) = none := by
          simp [ScanLines, hidx]
        simp only [scanLoop, htok]
        simp only [Option.isSome_none, Bool.false_eq_true, if_false]
        by_cases hfull : data.length = bufLen ∧ MaxScanTokenSize ≤ bufLen
        · simp only [hfull, and_self, if_true]
          have hfl := firstLine_of_index_none hidx src
          have hM : MaxScanTokenSize = 65536 := rfl
          have h3 : ¬ (data ++ src).length = 0 := by
            rw [List.length_append]; omega
          have h4 : ¬ (firstLine (data ++ src)).length < MaxScanTokenSize := by
            rw [hfl, List.length_append]; omega
          simp only [scanSpec, h3, h4, if_false]
        · rw [if_neg hfull]
          simp only [Option.isSome_none, Bool.false_eq_true, if_false] at hfuel
          have hnew : data.length < (if data.length = bufLen then
              min (if bufLen * 2 = 0 then startBufSize else bufLen * 2) MaxScanTokenSize
              else bufLen) ∧ (if data.length = bufLen then
              min (if bufLen * 2 = 0 then startBufSize else bufLen * 2) MaxScanTokenSize
              else bufLen) ≤ MaxScanTokenSize := by
            simp only [MaxScanTokenSize, startBufSize] at hfull hcap ⊢
            split_ifs <;> omega
          generalize (if data.length = bufLen then
              min (if bufLen * 2 = 0 then startBufSize else bufLen * 2) MaxScanTokenSize
              else bufLen) = newLen at hnew ⊢
          obtain ⟨hn1, hn2⟩ := hnew
          by_cases hsrc : src.length = 0
          · have : src = [] := List.length_eq_zero.mp hsrc
            subst this
            rw [ih]
            · simp [streamRead]
            · simp [streamRead]; omega
            · simpa [streamRead] using hn2
            · intro _; simp [streamRead]; omega
            · simp [streamRead]; omega
          · rw [ih]
            · simp [streamRead, hsrc]
            · simp [streamRead, hsrc]; omega
            · simpa [streamRead] using hn2
            · simp [streamRead, hsrc]
            · simp [streamRead, hsrc]; omega

theorem Scan_eq (stdin : Bytes) : Scan (NewScanner stdin) = scanSpec stdin := by
  unfold Scan
  rw [scanLoop_eq]
  · simp [NewScanner]
  · simp [NewScanner]
  · simp [NewScanner]
  · simp [NewScanner]
  · simp [NewScanner]

/-! ### The invariant of the pipe -/

theorem inv_init (w : World) (cli : KubeCliRuntime) (n : Bytes) (tr : List Event) :
    Inv w cli n tr (initState n tr) where
  written_eq := rfl
  drained := rfl
  closed_eof := by intro e h; simp [initState] at h
  returned_last := by intro k r h; simp [initState] at h
  trace_eq := by simp [initState, engineEvents]
  main_ret := by intro r h; simp [initState] at h

theorem inv_step {w : World} {cli : KubeCliRuntime} {n : Bytes} {tr : List Event}
    {s t : State} (hs : Inv w cli n tr s) (hst : Step w cli n s t) : Inv w cli n tr t := by
  obtain ⟨space, hpos, hstep⟩ := hst
  obtain ⟨pos, pending, written, closed, input, main, trace⟩ := s
  obtain ⟨h1, h2, h3, h4, h5, h6⟩ := hs
  simp only at h1 h2 h3 h4 h5 h6
  unfold step at hstep
  simp only at hstep
  cases main with
  | Returned r => simp at hstep
  | ReadFrom =>
    simp only at hstep h5
    cases pending with
    | some p =>
      simp only [Option.some.injEq] at hstep
      subst hstep
      have hcl : closed = none := by
        cases hc : closed with
        | none => rfl
        | some e => have := (h3 e hc).2.1; simp at this
      subst hcl
      refine ⟨h1, ?_, ?_, h4, by simpa using h5, by intro r h; simp at h⟩
      · simp only [Option.getD_some] at h2
        rw [← h2]
        by_cases hd : (List.drop (min space p.length) p).length = 0
        · have hd2 : List.drop (min space p.length) p = [] := List.length_eq_zero.mp hd
          have : List.take (min space p.length) p = p := by
            have := List.take_append_drop (min space p.length) p
            rw [hd2, List.append_nil] at this
            exact this
          rw [if_pos hd, this]
          simp
        · rw [if_neg hd]
          simp [List.append_assoc, List.take_append_drop]
      · intro e h; simp at h
    | none =>
      simp only at hstep
      cases closed with
      | some e =>
        simp only [Option.some.injEq] at hstep
        subst hstep
        obtain ⟨he, _, hr⟩ := h3 e rfl
        subst he
        refine ⟨h1, h2, h3, h4, ?_, ?_⟩
        · simp [h5]
        · intro r h
          simp at h
          simp [← h]
      | none =>
        simp only [Option.some.injEq] at hstep
        subst hstep
        have hnoret : ∀ k r, k < pos → w.Execute n k ≠ .Return r := by
          intro k r hk hr
          have := (h4 k r hk hr).2
          simp at this
        simp only [Option.getD_none, List.append_nil] at h2
        unfold producerStep
        simp only
        cases hact : w.Execute n pos with
        | Write p =>
          simp only
          refine ⟨?_, ?_, ?_, ?_, ?_, ?_⟩
          · simp [writesBefore, hact, actionBytes, h1]
          · simp [h2]
          · intro e h; simp at h
          · intro k r hk hr
            simp only at hk
            rcases Nat.lt_succ_iff_lt_or_eq.mp hk with h | h
            · exact absurd hr (hnoret k r h)
            · subst h; rw [hact] at hr; simp at hr
          · simp [engineEvents, hact, actionEvents, h5]
          · intro r h; simp at h
        | Idle =>
          simp only
          refine ⟨?_, ?_, ?_, ?_, ?_, ?_⟩
          · simp [writesBefore, hact, actionBytes, h1]
          · simp [h2]
          · intro e h; simp at h
          · intro k r hk hr
            simp only at hk
            rcases Nat.lt_succ_iff_lt_or_eq.mp hk with h | h
            · exact absurd hr (hnoret k r h)
            · subst h; rw [hact] at hr; simp at hr
          · simp [engineEvents, hact, actionEvents, h5]
          · intro r h; simp at h
        | Return r =>
          cases r with
          | none =>
            simp only
            refine ⟨?_, ?_, ?_, ?_, ?_, ?_⟩
            · simp [writesBefore, hact, actionBytes, h1]
            · simp [h2]
            · intro e h
              simp only [Option.some.injEq] at h
              exact ⟨h.symm, rfl, none, Nat.succ_pos _, by simpa using hact⟩
            · intro k r hk hr
              simp only at hk
              rcases Nat.lt_succ_iff_lt_or_eq.mp hk with h | h
              · exact absurd hr (hnoret k r h)
              · subst h; exact ⟨rfl, rfl⟩
            · simp [engineEvents, hact, actionEvents, h5]
            · intro r h; simp at h
          | some err =>
            simp only
            refine ⟨?_, ?_, ?_, ?_, ?_, ?_⟩
            · simp [writesBefore, hact, actionBytes, h1]
            · simp [h2]
            · intro e h
              simp only [Option.some.injEq] at h
              exact ⟨h.symm, rfl, some err, Nat.succ_pos _, by simpa using hact⟩
            · intro k r hk hr
              simp only at hk
              rcases Nat.lt_succ_iff_lt_or_eq.mp hk with h | h
              · exact absurd hr (hnoret k r h)
              · subst h; exact ⟨rfl, rfl⟩
            · simp [engineEvents, hact, actionEvents, h5]
            · intro r h; simp at h

theorem inv_reachable {w : World} {cli : KubeCliRuntime} {n : Bytes} {tr : List Event}
    {s : State} (h : Reachable w cli n tr s) : Inv w cli n tr s := by
  induction h with
  | init => exact inv_init w cli n tr
  | next _ hst ih => exact inv_step ih hst

/-! ### The deterministic schedule reaches the end -/

theorem fullSpace_pos (s : State) : 0 < fullSpace s := by
  unfold fullSpace
  split <;> omega

theorem runPipe_reachable {w : World} {cli : KubeCliRuntime} {n : Bytes} {tr : List Event} :
    ∀ (fuel : Nat) {s : State}, Reachable w cli n tr s →
      Reachable w cli n tr (runPipe w cli n fuel s) := by
  intro fuel
  induction fuel with
  | zero => intro s h; exact h
  | succ fuel ih =>
    intro s h
    unfold runPipe
    cases hst : step w cli n (fullSpace s) s with
    | none => exact h
    | some t => exact ih (Reachable.next h ⟨fullSpace s, fullSpace_pos s, hst⟩)

theorem producerStep_pos (w : World) (n : Bytes) (s : State) :
    (producerStep w n s).pos = s.pos + 1 ∧ (producerStep w n s).main = s.main := by
  unfold producerStep
  split <;> simp

theorem step_decreases {w : World} {cli : KubeCliRuntime} {n : Bytes} {tr : List Event}
    {s : State} {k : Nat} {r : Option Error} (hs : Inv w cli n tr s)
    (hret : ReturnsAt (w.Execute n) k r) (hmain : s.main = .ReadFrom) :
    ∃ t, step w cli n (fullSpace s) s = some t ∧ stepsLeft k t < stepsLeft k s := by
  obtain ⟨pos, pending, written, closed, input, main, trace⟩ := s
  simp only at hmain
  subst hmain
  cases pending with
  | some p =>
    refine ⟨_, rfl, ?_⟩
    have hmin : min (p.length + 1) p.length = p.length := by omega
    simp [stepsLeft, fullSpace, hmin]
  | none =>
    cases closed with
    | some e =>
      refine ⟨_, rfl, ?_⟩
      simp [stepsLeft]
    | none =>
      have hle : pos ≤ k := by
        by_contra hlt
        have := (hs.returned_last k r (by simpa using hlt) hret.1).2
        simp at this
      have hp := producerStep_pos w n ⟨pos, none, written, none, input, MainPc.ReadFrom, trace⟩
      refine ⟨producerStep w n ⟨pos, none, written, none, input, MainPc.ReadFrom, trace⟩, rfl, ?_⟩
      generalize producerStep w n ⟨pos, none, written, none, input, MainPc.ReadFrom, trace⟩ = t at hp
      obtain ⟨hp1, hp2⟩ := hp
      simp only at hp1 hp2
      simp only [stepsLeft, hp1, hp2]
      split <;> simp <;> omega

theorem runPipe_terminates {w : World} {cli : KubeCliRuntime} {n : Bytes} {tr : List Event}
    {k : Nat} {r : Option Error} (hret : ReturnsAt (w.Execute n) k r) :
    ∀ (fuel : Nat) {s : State}, Reachable w cli n tr s → stepsLeft k s ≤ fuel →
      ∃ e, (runPipe w cli n fuel s).main = .Returned e := by
  intro fuel
  induction fuel with
  | zero =>
    intro s _ hle
    cases hm : s.main with
    | Returned e => exact ⟨e, by simpa [runPipe] using hm⟩
    | ReadFrom => simp [stepsLeft, hm] at hle
  | succ fuel ih =>
    intro s hs hle
    cases hm : s.main with
    | Returned e =>
      refine ⟨e, ?_⟩
      have : step w cli n (fullSpace s) s = none := by simp [step, hm]
      simp [runPipe, this, hm]
    | ReadFrom =>
      obtain ⟨t, ht, hlt⟩ := step_decreases (inv_reachable hs) hret hm
      simp only [runPipe, ht]
      exact ih (Reachable.next hs ⟨fullSpace s, fullSpace_pos s, ht⟩) (by omega)

theorem writesBefore_succ_of_return {acts : Nat → EngineAction} {k : Nat} {r : Option Error}
    (h : acts k = .Return r) : writesBefore acts (k + 1) = writesBefore acts k := by
  simp [writesBefore, h, actionBytes]

theorem final_state {w : World} {cli : KubeCliRuntime} {n : Bytes} {tr : List Event}
    {s : State} {k : Nat} {r e : Option Error} (hs : Inv w cli n tr s)
    (hret : ReturnsAt (w.Execute n) k r) (hmain : s.main = .Returned e) :
    s.pos = k + 1 ∧ s.pending = none ∧ s.input = writesBefore (w.Execute n) k ∧
    s.trace = tr ++ [.Execute n] ++ engineEvents (w.Execute n) (k + 1) ++
      (afterReadFrom w cli none (writesBefore (w.Execute n) k)).1 ∧
    e = (afterReadFrom w cli none (writesBefore (w.Execute n) k)).2 := by
  obtain ⟨hcl, he⟩ := hs.main_ret e hmain
  obtain ⟨_, hpend, r', hpos, hr'⟩ := hs.closed_eof EOF hcl
  have hk : k < s.pos := by
    by_contra hge
    have hlt : s.pos - 1 < k := by omega
    exact hret.2 _ hlt r' hr'
  have hpos' := (hs.returned_last k r hk hret.1).1
  have hin : s.input = writesBefore (w.Execute n) k := by
    have := hs.drained
    rw [hpend, hs.written_eq, ← hpos', writesBefore_succ_of_return hret.1] at this
    simpa using this
  refine ⟨hpos'.symm, hpend, hin, ?_, ?_⟩
  · have := hs.trace_eq
    rw [hmain] at this
    simp only at this
    rw [this, ← hpos', hin]
  · rw [he, hin]

theorem stepsLeft_init (k : Nat) (n : Bytes) (tr : List Event) :
    stepsLeft k (initState n tr) = 2 * (k + 1) + 1 := by
  simp [stepsLeft, initState]

theorem runPipe_eq_of_returnsAt {w : World} {cli : KubeCliRuntime} {n : Bytes}
    {tr : List Event} {k : Nat} {r : Option Error} (hret : ReturnsAt (w.Execute n) k r)
    {fuel : Nat} (hfuel : 2 * (k + 1) + 1 ≤ fuel) :
    (runPipe w cli n fuel (initState n tr)).result =
      { trace := tr ++ [.Execute n] ++ engineEvents (w.Execute n) (k + 1) ++
          (afterReadFrom w cli none (writesBefore (w.Execute n) k)).1,
        outcome := .Returned (afterReadFrom w cli none (writesBefore (w.Execute n) k)).2 } := by
  have hreach : Reachable w cli n tr (runPipe w cli n fuel (initState n tr)) :=
    runPipe_reachable fuel Reachable.init
  obtain ⟨e, he⟩ := runPipe_terminates hret fuel (Reachable.init : Reachable w cli n tr _)
    (by rw [stepsLeft_init]; exact hfuel)
  obtain ⟨_, _, _, htr, hres⟩ := final_state (inv_reachable hreach) hret he
  simp only [State.result, he, htr, hres]

theorem Run_eq_of_returnsAt {w : World} {o : ApplyOptions} {A B : Bytes} {h : ReaderHandle}
    {k : Nat} {r : Option Error}
    (hfetch : w.GetGeneralResources (o.getCliRuntime w) = (A, none))
    (hread : o.reader w = .ok (h, B))
    (hret : ReturnsAt (w.Execute (A ++ B)) k r)
    {fuel : Nat} (hfuel : 2 * (k + 1) + 1 ≤ fuel) :
    o.Run w fuel =
      { trace := setupTrace (o.getCliRuntime w) ++ [.Execute (A ++ B)] ++
          engineEvents (w.Execute (A ++ B)) (k + 1) ++
          (afterReadFrom w (o.getCliRuntime w) none (writesBefore (w.Execute (A ++ B)) k)).1,
        outcome := .Returned
          (afterReadFrom w (o.getCliRuntime w) none (writesBefore (w.Execute (A ++ B)) k)).2 } := by
  unfold ApplyOptions.Run
  simp only [hfetch, hread]
  exact runPipe_eq_of_returnsAt hret hfuel

theorem Run_eq_pipe {w : World} {o : ApplyOptions} {A B : Bytes} {h : ReaderHandle}
    (hfetch : w.GetGeneralResources (o.getCliRuntime w) = (A, none))
    (hread : o.reader w = .ok (h, B)) (fuel : Nat) :
    o.Run w fuel = (runPipe w (o.getCliRuntime w) (A ++ B) fuel
      (initState (A ++ B) (setupTrace (o.getCliRuntime w)))).result := by
  unfold ApplyOptions.Run
  simp only [hfetch, hread]

/-! ### The events of a trace -/

theorem writePayloads_append (l₁ l₂ : List Event) :
    writePayloads (l₁ ++ l₂) = writePayloads l₁ ++ writePayloads l₂ := by
  induction l₁ with
  | nil => rfl
  | cons e rest ih => cases e <;> simp [writePayloads, ih]

theorem writePayloads_actionEvents (a : EngineAction) :
    writePayloads (actionEvents a) = actionBytes a := by
  cases a with
  | Write p => simp [actionEvents, actionBytes, writePayloads]
  | Idle => rfl
  | Return r => cases r <;> rfl

theorem writePayloads_engineEvents (acts : Nat → EngineAction) (k : Nat) :
    writePayloads (engineEvents acts k) = writesBefore acts k := by
  induction k with
  | zero => rfl
  | succ k ih =>
    simp [engineEvents, writesBefore, writePayloads_append, ih, writePayloads_actionEvents]

theorem writePayloads_afterReadFrom (w : World) (cli : KubeCliRuntime) (err : Option Error)
    (input : Bytes) : writePayloads (afterReadFrom w cli err input).1 = [] := by
  unfold afterReadFrom
  cases err with
  | some e => rfl
  | none => cases w.Apply cli cli.Flags input <;> rfl

theorem actionEvents_kind {a : EngineAction} {ev : Event} (h : ev ∈ actionEvents a) :
    ev.isFetch = false ∧ ev.isReader = false ∧ ev.isExecute = false ∧ ev.isApply = false := by
  cases a with
  | Write p =>
    simp only [actionEvents, List.mem_singleton] at h
    subst h; simp [Event.isFetch, Event.isReader, Event.isExecute, Event.isApply]
  | Idle => simp [actionEvents] at h
  | Return r =>
    cases r with
    | none =>
      simp only [actionEvents, List.mem_singleton] at h
      subst h; simp [Event.isFetch, Event.isReader, Event.isExecute, Event.isApply]
    | some e =>
      simp only [actionEvents, List.mem_cons, List.mem_singleton, List.not_mem_nil,
        or_false] at h
      rcases h with h | h <;> subst h <;>
        simp [Event.isFetch, Event.isReader, Event.isExecute, Event.isApply]

theorem engineEvents_kind {acts : Nat → EngineAction} {k : Nat} {ev : Event}
    (h : ev ∈ engineEvents acts k) :
    ev.isFetch = false ∧ ev.isReader = false ∧ ev.isExecute = false ∧ ev.isApply = false := by
  induction k with
  | zero => simp [engineEvents] at h
  | succ k ih =>
    simp only [engineEvents, List.mem_append] at h
    rcases h with h | h
    · exact ih h
    · exact actionEvents_kind h

theorem afterReadFrom_kind {w : World} {cli : KubeCliRuntime} {err : Option Error}
    {input : Bytes} {ev : Event} (h : ev ∈ (afterReadFrom w cli err input).1) :
    ev.isFetch = false ∧ ev.isReader = false ∧ ev.isExecute = false ∧
      (ev.isApply = true → ev = .Apply cli cli.Flags input ∧ err = none) := by
  unfold afterReadFrom at h
  cases err with
  | some e =>
    simp only [List.mem_singleton] at h
    subst h; simp [Event.isFetch, Event.isReader, Event.isExecute, Event.isApply]
  | none =>
    cases ha : w.Apply cli cli.Flags input with
    | none =>
      simp only [ha, List.mem_singleton] at h
      subst h; simp [Event.isFetch, Event.isReader, Event.isExecute, Event.isApply]
    | some e =>
      simp only [ha, List.mem_cons, List.mem_singleton, List.not_mem_nil, or_false] at h
      rcases h with h | h <;> subst h <;>
        simp [Event.isFetch, Event.isReader, Event.isExecute, Event.isApply]

theorem countP_eq_zero_of_kind {p : Event → Bool} {l : List Event}
    (h : ∀ ev ∈ l, p ev = false) : l.countP p = 0 := by
  rw [List.countP_eq_zero]
  intro ev hev
  simp [h ev hev]

theorem countP_afterReadFrom_isApply (w : World) (cli : KubeCliRuntime) (err : Option Error)
    (input : Bytes) : (afterReadFrom w cli err input).1.countP Event.isApply ≤ 1 := by
  unfold afterReadFrom
  cases err with
  | some e => simp [List.countP_cons, Event.isApply]
  | none =>
    cases w.Apply cli cli.Flags input <;> simp [List.countP_cons, Event.isApply]

/-- The shape of the trace in a state of the two tasks. -/
theorem trace_counts {w : World} {cli : KubeCliRuntime} {n : Bytes} {s : State}
    (hs : Inv w cli n (setupTrace cli) s) :
    s.trace.countP Event.isFetch ≤ 1 ∧ s.trace.countP Event.isReader ≤ 1 ∧
    s.trace.countP Event.isExecute ≤ 1 ∧ s.trace.countP Event.isApply ≤ 1 := by
  rw [hs.trace_eq]
  have he := fun (p : Event → Bool) (hp : ∀ ev ∈ engineEvents (w.Execute n) s.pos, p ev = false) =>
    countP_eq_zero_of_kind hp
  have h1 := he Event.isFetch (fun ev h => (engineEvents_kind h).1)
  have h2 := he Event.isReader (fun ev h => (engineEvents_kind h).2.1)
  have h3 := he Event.isExecute (fun ev h => (engineEvents_kind h).2.2.1)
  have h4 := he Event.isApply (fun ev h => (engineEvents_kind h).2.2.2)
  cases hm : s.main with
  | ReadFrom =>
    simp [List.countP_append, List.countP_cons, setupTrace, h1, h2, h3, h4,
      Event.isFetch, Event.isReader, Event.isExecute, Event.isApply]
  | Returned r =>
    have ha := fun (p : Event → Bool)
        (hp : ∀ ev ∈ (afterReadFrom w cli none s.input).1, p ev = false) =>
      countP_eq_zero_of_kind hp
    have a1 := ha Event.isFetch (fun ev h => (afterReadFrom_kind h).1)
    have a2 := ha Event.isReader (fun ev h => (afterReadFrom_kind h).2.1)
    have a3 := ha Event.isExecute (fun ev h => (afterReadFrom_kind h).2.2.1)
    have a4 := countP_afterReadFrom_isApply w cli none s.input
    simp only [List.countP_append, h1, h2, h3, h4, a1, a2, a3]
    simp [List.countP_cons, setupTrace, Event.isFetch, Event.isReader, Event.isExecute,
      Event.isApply]
    exact a4

/-! ### The claims -/

theorem Run_reachable {w : World} {o : ApplyOptions} {A B : Bytes} {h : ReaderHandle}
    (hfetch : w.GetGeneralResources (o.getCliRuntime w) = (A, none))
    (hread : o.reader w = .ok (h, B)) (fuel : Nat) :
    ∃ s, Reachable w (o.getCliRuntime w) (A ++ B) (setupTrace (o.getCliRuntime w)) s ∧
      o.Run w fuel = s.result :=
  ⟨_, runPipe_reachable fuel Reachable.init, Run_eq_pipe hfetch hread fuel⟩

theorem mem_trace_cases {w : World} {cli : KubeCliRuntime} {n : Bytes} {s : State}
    (hs : Inv w cli n (setupTrace cli) s) {ev : Event} (hev : ev ∈ s.trace) :
    ev = .GetGeneralResources cli ∨ ev = .reader ∨ ev = .Execute n ∨
      ev ∈ engineEvents (w.Execute n) s.pos ∨
      (ev ∈ (afterReadFrom w cli none s.input).1 ∧ ∃ r, s.main = .Returned r) := by
  rw [hs.trace_eq] at hev
  simp only [setupTrace, List.mem_append, List.mem_cons, List.mem_singleton,
    List.not_mem_nil, or_false] at hev
  rcases hev with ((h | h) | h) | h
  · rcases h with h | h
    · exact Or.inl h
    · exact Or.inr (Or.inl h)
  · exact Or.inr (Or.inr (Or.inl h))
  · exact Or.inr (Or.inr (Or.inr (Or.inl h)))
  · cases hm : s.main with
    | ReadFrom => simp [hm] at h
    | Returned r =>
      rw [hm] at h
      exact Or.inr (Or.inr (Or.inr (Or.inr ⟨h, r, rfl⟩)))

/-- C1: when the cluster fetch wrote the bytes `A` and `reader()` returned the
bytes `B`, the first three events of `Run` are the fetch, the read and the start
of the pipeline engine on the input stream `A ++ B`, and the engine is never
started on any other stream. -/
theorem Run_combined_stream (w : World) (o : ApplyOptions) (A B : Bytes) (h : ReaderHandle)
    (fuel : Nat)
    (hfetch : w.GetGeneralResources (o.getCliRuntime w) = (A, none))
    (hread : o.reader w = .ok (h, B)) :
    (o.Run w fuel).trace.take 3 =
      [.GetGeneralResources (o.getCliRuntime w), .reader, .Execute (A ++ B)] ∧
    ∀ x, Event.Execute x ∈ (o.Run w fuel).trace → x = A ++ B := by
  obtain ⟨s, hs, hrun⟩ := Run_reachable hfetch hread fuel
  have hinv := inv_reachable hs
  rw [hrun]
  refine ⟨?_, ?_⟩
  · simp [State.result, hinv.trace_eq, setupTrace]
  · intro x hx
    rcases mem_trace_cases hinv hx with h | h | h | h | h
    · cases h
    · cases h
    · cases h; rfl
    · have := (engineEvents_kind h).2.2.1
      simp [Event.isExecute] at this
    · have := (afterReadFrom_kind h.1).2.2.1
      simp [Event.isExecute] at this

theorem Run_combined_stream_witness :
    ((exampleWorld [4, 5, 10, 6] echoEngine).GetGeneralResources
        (stdinOptions.getCliRuntime (exampleWorld [4, 5, 10, 6] echoEngine)) = ([1, 2, 3], none) ∧
      stdinOptions.reader (exampleWorld [4, 5, 10, 6] echoEngine) = .ok (.Stdin, [4, 5])) ∧
    (stdinOptions.Run (exampleWorld [4, 5, 10, 6] echoEngine) 9).trace.take 3 =
      [.GetGeneralResources (stdinOptions.getCliRuntime (exampleWorld [4, 5, 10, 6] echoEngine)),
        .reader, .Execute ([1, 2, 3] ++ [4, 5])] :=
  ⟨⟨rfl, rfl⟩, (Run_combined_stream (exampleWorld [4, 5, 10, 6] echoEngine) stdinOptions
    [1, 2, 3] [4, 5] .Stdin 9 rfl rfl).1⟩

theorem Run_cases (w : World) (o : ApplyOptions) (fuel : Nat) :
    (∃ A err, w.GetGeneralResources (o.getCliRuntime w) = (A, some err) ∧
      o.Run w fuel =
        { trace := [.GetGeneralResources (o.getCliRuntime w),
            .Errorf ("get general resource err: " ++ err)],
          outcome := .Returned (some err) }) ∨
    (∃ A err, w.GetGeneralResources (o.getCliRuntime w) = (A, none) ∧
      o.reader w = .error err ∧
      o.Run w fuel =
        { trace := [.GetGeneralResources (o.getCliRuntime w), .reader,
            .Errorf ("read kcl code err: " ++ err)],
          outcome := .Returned (some err) }) ∨
    (∃ A B h s, w.GetGeneralResources (o.getCliRuntime w) = (A, none) ∧
      o.reader w = .ok (h, B) ∧
      Reachable w (o.getCliRuntime w) (A ++ B) (setupTrace (o.getCliRuntime w)) s ∧
      o.Run w fuel = s.result) := by
  cases hf : w.GetGeneralResources (o.getCliRuntime w) with
  | mk A e =>
    cases e with
    | some err =>
      left
      exact ⟨A, err, rfl, by simp [ApplyOptions.Run, hf]⟩
    | none =>
      right
      cases hr : o.reader w with
      | error err =>
        left
        exact ⟨A, err, rfl, rfl, by simp [ApplyOptions.Run, hf, hr]⟩
      | ok hb =>
        right
        obtain ⟨h, B⟩ := hb
        obtain ⟨s, hs, hrun⟩ := Run_reachable hf hr fuel
        exact ⟨A, B, h, s, rfl, rfl, hs, hrun⟩

theorem afterReadFrom_none_snd (w : World) (cli : KubeCliRuntime) (input : Bytes) :
    (afterReadFrom w cli none input).2 = w.Apply cli cli.Flags input := by
  unfold afterReadFrom
  cases h : w.Apply cli cli.Flags input <;> simp

theorem apply_mem_afterReadFrom (w : World) (cli : KubeCliRuntime) (input : Bytes) :
    Event.Apply cli cli.Flags input ∈ (afterReadFrom w cli none input).1 := by
  unfold afterReadFrom
  cases h : w.Apply cli cli.Flags input <;> simp

theorem apply_mem_state {w : World} {cli : KubeCliRuntime} {n : Bytes} {s : State}
    (hs : Inv w cli n (setupTrace cli) s) {c : KubeCliRuntime} {f : ConfigFlags} {p : Bytes}
    (hev : Event.Apply c f p ∈ s.trace) :
    c = cli ∧ f = cli.Flags ∧ p = s.input ∧ ∃ r, s.main = .Returned r := by
  rcases mem_trace_cases hs hev with h | h | h | h | h
  · cases h
  · cases h
  · cases h
  · have := (engineEvents_kind h).2.2.2
    simp [Event.isApply] at this
  · have := ((afterReadFrom_kind h.1).2.2.2 rfl).1
    simp only [Event.Apply.injEq] at this
    exact ⟨this.1, this.2.1, this.2.2, h.2⟩

theorem apply_mem_Run {w : World} {o : ApplyOptions} {fuel : Nat} {c : KubeCliRuntime}
    {f : ConfigFlags} {p : Bytes} (hev : Event.Apply c f p ∈ (o.Run w fuel).trace) :
    c = o.getCliRuntime w ∧ f = (o.getCliRuntime w).Flags ∧
      (o.Run w fuel).outcome = .Returned (w.Apply c f p) := by
  rcases Run_cases w o fuel with ⟨A, err, _, hrun⟩ | ⟨A, err, _, _, hrun⟩ | ⟨A, B, h, s, _, _, hs, hrun⟩
  · rw [hrun] at hev; simp at hev
  · rw [hrun] at hev; simp at hev
  · rw [hrun] at hev ⊢
    have hinv := inv_reachable hs
    obtain ⟨h1, h2, h3, r, hr⟩ := apply_mem_state hinv hev
    refine ⟨h1, h2, ?_⟩
    have := (hinv.main_ret r hr).2
    subst h1 h2 h3
    simp only [State.result, hr, this, afterReadFrom_none_snd]

/-- C8: the client runtime of `Run` carries the namespace, the selector and the
field selector of the options unchanged (and the flags of the fresh runtime);
every call of `Apply` is made on that runtime, with its flags; when the three
scoping options are empty, so are the three fields of the runtime `Apply` is
called on. -/
theorem Run_scoping_options (w : World) (o : ApplyOptions) :
    ((o.getCliRuntime w).Namespace = o.Namespace ∧
      (o.getCliRuntime w).Selector = o.Selector ∧
      (o.getCliRuntime w).FieldSelector = o.FieldSelector ∧
      (o.getCliRuntime w).Flags = w.NewKubeCliRuntime.Flags) ∧
    (∀ fuel c f p, Event.Apply c f p ∈ (o.Run w fuel).trace →
      c = o.getCliRuntime w ∧ f = c.Flags ∧
      c.Namespace = o.Namespace ∧ c.Selector = o.Selector ∧
      c.FieldSelector = o.FieldSelector) ∧
    (o.Namespace = "" → o.Selector = "" → o.FieldSelector = "" →
      ∀ fuel c f p, Event.Apply c f p ∈ (o.Run w fuel).trace →
        c.Namespace = "" ∧ c.Selector = "" ∧ c.FieldSelector = "") := by
  have hfields : (o.getCliRuntime w).Namespace = o.Namespace ∧
      (o.getCliRuntime w).Selector = o.Selector ∧
      (o.getCliRuntime w).FieldSelector = o.FieldSelector ∧
      (o.getCliRuntime w).Flags = w.NewKubeCliRuntime.Flags := ⟨rfl, rfl, rfl, rfl⟩
  refine ⟨hfields, ?_, ?_⟩
  · intro fuel c f p hev
    obtain ⟨h1, h2, _⟩ := apply_mem_Run hev
    subst h1
    exact ⟨rfl, h2, hfields.1, hfields.2.1, hfields.2.2.1⟩
  · intro hn hs hf fuel c f p hev
    obtain ⟨h1, _, _⟩ := apply_mem_Run hev
    subst h1
    exact ⟨hfields.1.trans hn, hfields.2.1.trans hs, hfields.2.2.1.trans hf⟩

theorem Run_scoping_options_witness :
    Event.Apply (fileOptions.getCliRuntime (exampleWorld [] echoEngine)) ⟨7⟩ [1, 2, 3, 8, 9] ∈
        (fileOptions.Run (exampleWorld [] echoEngine) 9).trace ∧
      (fileOptions.getCliRuntime (exampleWorld [] echoEngine)).Namespace = "ns" ∧
      (fileOptions.getCliRuntime (exampleWorld [] echoEngine)).Selector = "app=x" ∧
      (fileOptions.getCliRuntime (exampleWorld [] echoEngine)).FieldSelector = "a=b" :=
  ⟨by decide,
    ((Run_scoping_options (exampleWorld [] echoEngine) fileOptions).2.1 9
      (fileOptions.getCliRuntime (exampleWorld [] echoEngine)) ⟨7⟩ [1, 2, 3, 8, 9]
      (by decide)).2.2⟩

theorem bufioReaderRead_regular (f : File) (hread : f.readErr = none)
    (hcap : f.content.length ≤ maxRW) :
    bufioReaderRead f f.content.length = (f.content, none) := by
  unfold bufioReaderRead
  by_cases h0 : f.content.length = 0
  · have : f.content = [] := List.length_eq_zero.mp h0
    simp [this]
  · rw [if_neg h0]
    have hM : maxRW = 1073741824 := rfl
    have hD : defaultBufSize = 4096 := rfl
    by_cases hbig : defaultBufSize ≤ f.content.length
    · rw [if_pos hbig]
      have hmin : min f.content.length maxRW = f.content.length := Nat.min_eq_left hcap
      simp only [File.Read, hread, h0, if_false, hmin, List.take_length]
    · rw [if_neg hbig]
      have hmin : min defaultBufSize maxRW = defaultBufSize := by
        rw [hM, hD]; rfl
      have hpos : ¬ defaultBufSize = 0 := by rw [hD]; decide
      have htake : List.take defaultBufSize f.content = f.content :=
        List.take_of_length_le (by omega)
      simp only [File.Read, hread, hpos, h0, if_false, hmin, htake, List.take_length]

theorem reader_file_eq {w : World} {o : ApplyOptions} {f : File} (hpath : o.InputPath ≠ "-")
    (hopen : w.Open o.InputPath = .ok f) (hstat : f.statErr = none)
    (hread : f.readErr = none) (hsize : f.size = f.content.length)
    (hcap : f.content.length ≤ maxRW) :
    o.reader w = .ok (.NewReader o.InputPath, f.content) := by
  unfold ApplyOptions.reader
  rw [if_neg hpath]
  simp only [hopen, File.Stat, hstat, hsize, bufioReaderRead_regular f hread hcap]
  simp

theorem reader_file_large (w : World) (o : ApplyOptions) (f : File)
    (hpath : o.InputPath ≠ "-") (hopen : w.Open o.InputPath = .ok f)
    (hstat : f.statErr = none) (hread : f.readErr = none)
    (hbig : defaultBufSize ≤ f.size) (hc : f.content.length ≠ 0) :
    o.reader w = .ok (.NewReader o.InputPath,
      f.content.take (min f.size maxRW) ++
        List.replicate (f.size - min (min f.size maxRW) f.content.length) 0) := by
  have hD : defaultBufSize = 4096 := rfl
  have hn0 : ¬ f.size = 0 := by omega
  have hr : bufioReaderRead f f.size = (f.content.take (min f.size maxRW), none) := by
    unfold bufioReaderRead
    rw [if_neg hn0, if_pos hbig]
    simp only [File.Read, hread, hn0, hc, if_false]
  unfold ApplyOptions.reader
  rw [if_neg hpath]
  simp only [hopen, File.Stat, hstat, hr, List.length_take]

theorem reader_bigFile :
    bigFileOptions.reader specialFilesWorld =
      .ok (.NewReader "big", List.replicate maxRW 97 ++ List.replicate 4 0) := by
  have hM : maxRW = 1073741824 := rfl
  have hD : defaultBufSize = 4096 := rfl
  have e1 : bigFile.size = maxRW + 4 := rfl
  have e2 : bigFile.content = List.replicate (maxRW + 4) 97 := rfl
  have e3 : bigFileOptions.InputPath = "big" := rfl
  have hlen : bigFile.content.length = maxRW + 4 := List.length_replicate _ _
  have m1 : min (maxRW + 4) maxRW = maxRW := Nat.min_eq_right (Nat.le_add_right maxRW 4)
  have m2 : min maxRW (maxRW + 4) = maxRW := Nat.min_eq_left (Nat.le_add_right maxRW 4)
  have hbig : defaultBufSize ≤ bigFile.size := by rw [e1]; omega
  have hc : bigFile.content.length ≠ 0 := by rw [hlen]; omega
  have h := reader_file_large specialFilesWorld bigFileOptions bigFile (by decide) rfl rfl rfl
    hbig hc
  rw [hlen, e1, m1, m2, Nat.add_sub_cancel_left, e2, List.take_replicate, m2, e3] at h
  exact h

/-- C6 (amended): when the input path is not `-` and names a file that opens,
whose `Stat` and read succeed, whose reported size is the number of its bytes
and is at most `maxRW` (1 GiB), `reader()` returns exactly the bytes of the
file, with no error; for the empty file it returns no byte, and `Run` then
starts the pipeline engine on the cluster snapshot alone. -/
theorem reader_file_content (w : World) (o : ApplyOptions) (f : File)
    (hpath : o.InputPath ≠ "-") (hopen : w.Open o.InputPath = .ok f)
    (hstat : f.statErr = none) (hread : f.readErr = none)
    (hsize : f.size = f.content.length) (hcap : f.content.length ≤ maxRW) :
    o.reader w = .ok (.NewReader o.InputPath, f.content) ∧
    (f.content = [] →
      o.reader w = .ok (.NewReader o.InputPath, []) ∧
      ∀ A fuel, w.GetGeneralResources (o.getCliRuntime w) = (A, none) →
        (o.Run w fuel).trace.take 3 =
          [.GetGeneralResources (o.getCliRuntime w), .reader, .Execute A] ∧
        ∀ x, Event.Execute x ∈ (o.Run w fuel).trace → x = A) := by
  have hr := reader_file_eq hpath hopen hstat hread hsize hcap
  refine ⟨hr, fun hempty => ?_⟩
  rw [hempty] at hr
  refine ⟨hr, fun A fuel hfetch => ?_⟩
  have hpipe := Run_reachable hfetch hr fuel
  obtain ⟨s, hs, hrun⟩ := hpipe
  have hinv := inv_reachable hs
  rw [List.append_nil] at hinv
  rw [hrun]
  refine ⟨by simp [State.result, hinv.trace_eq, setupTrace], fun x hx => ?_⟩
  rcases mem_trace_cases hinv hx with h | h | h | h | h
  · cases h
  · cases h
  · cases h; rfl
  · have := (engineEvents_kind h).2.2.1
    simp [Event.isExecute] at this
  · have := (afterReadFrom_kind h.1).2.2.1
    simp [Event.isExecute] at this

theorem reader_file_content_witness :
    (emptyFileOptions.InputPath ≠ "-" ∧
      (exampleWorld [] echoEngine).Open emptyFileOptions.InputPath =
        .ok { size := 0, content := [], statErr := none, readErr := none }) ∧
    emptyFileOptions.reader (exampleWorld [] echoEngine) = .ok (.NewReader "e", []) ∧
    (emptyFileOptions.Run (exampleWorld [] echoEngine) 9).trace.take 3 =
      [.GetGeneralResources (emptyFileOptions.getCliRuntime (exampleWorld [] echoEngine)),
        .reader, .Execute [1, 2, 3]] :=
  ⟨⟨by decide, rfl⟩,
    ((reader_file_content (exampleWorld [] echoEngine) emptyFileOptions
      { size := 0, content := [], statErr := none, readErr := none } (by decide) rfl rfl rfl
      rfl (Nat.zero_le _)).2 rfl).1,
    ((((reader_file_content (exampleWorld [] echoEngine) emptyFileOptions
      { size := 0, content := [], statErr := none, readErr := none } (by decide) rfl rfl rfl
      rfl (Nat.zero_le _)).2 rfl).2 [1, 2, 3] 9 rfl)).1⟩

/-- C6 fails as stated: for the file `p`, whose reported size is 0 and whose
bytes are 8, 9, `reader()` returns no byte; for the file `s`, whose reported
size is 4 and whose bytes are 8, 9, it returns 8, 9, 0, 0; for the regular file
`big` of `maxRW + 4` bytes `a`, it returns `maxRW` bytes `a` and 4 bytes 0,
which are not the bytes of the file. -/
theorem reader_file_counterexample :
    (procFile.content = [8, 9] ∧
      procFileOptions.reader specialFilesWorld = .ok (.NewReader "p", [])) ∧
    (sysFile.content = [8, 9] ∧
      sysFileOptions.reader specialFilesWorld = .ok (.NewReader "s", [8, 9, 0, 0])) ∧
    (bigFile.size = bigFile.content.length ∧
      bigFileOptions.reader specialFilesWorld =
        .ok (.NewReader "big", List.replicate maxRW 97 ++ List.replicate 4 0) ∧
      List.replicate maxRW 97 ++ List.replicate 4 0 ≠ bigFile.content) := by
  refine ⟨⟨rfl, rfl⟩, ⟨rfl, rfl⟩, (List.length_replicate _ _).symm, reader_bigFile, ?_⟩
  intro heq
  have hmem : (0 : Byte) ∈ List.replicate maxRW (97 : Byte) ++ List.replicate 4 (0 : Byte) :=
    List.mem_append_right _ (List.mem_replicate.mpr ⟨by decide, rfl⟩)
  rw [heq] at hmem
  have h97 : (0 : Byte) = 97 := List.eq_of_mem_replicate hmem
  exact absurd h97 (by decide)

theorem dropCR_cases (l : Bytes) :
    l = dropCR l ++ [carriageReturn] ∨
      (l = dropCR l ∧ (dropCR l).getLast? ≠ some carriageReturn) := by
  unfold dropCR
  by_cases h : 0 < l.length ∧ l.getLast? = some carriageReturn
  · rw [if_pos h]
    left
    rw [← List.dropLast_eq_take]
    exact (List.dropLast_append_getLast? carriageReturn (by simp [h.2])).symm
  · rw [if_neg h]
    right
    refine ⟨rfl, fun hl => h ⟨?_, hl⟩⟩
    cases l with
    | nil => simp at hl
    | cons b rest => simp

theorem reader_stdin_eq {w : World} {o : ApplyOptions} (hpath : o.InputPath = "-") :
    o.reader w =
      match scanSpec w.Stdin with
      | none => .error "input scan err"
      | some line => .ok (.Stdin, line) := by
  unfold ApplyOptions.reader
  rw [if_pos hpath, Scan_eq]

theorem firstLine_replicate (n : Nat) (b : Byte) (hb : b ≠ newline) :
    firstLine (List.replicate n b) = List.replicate n b := by
  unfold firstLine
  rw [List.takeWhile_eq_self_iff]
  intro x hx
  rw [List.eq_of_mem_replicate hx]
  simpa using hb

/-- C7 (amended): with the input path `-`, `reader()` succeeds when standard
input holds at least one byte and its first line (the bytes before the first
newline, all of them when there is none) is shorter than 65536 bytes; the bytes
returned are that line without one terminal carriage return, if it has one.
With an empty standard input, or a first line of 65536 bytes or more, it fails
with the error `input scan err`. -/
theorem reader_stdin_line (w : World) (o : ApplyOptions) (hpath : o.InputPath = "-") :
    (w.Stdin ≠ [] → (firstLine w.Stdin).length < 65536 →
      ∃ line, o.reader w = .ok (.Stdin, line) ∧
        (firstLine w.Stdin = line ++ [carriageReturn] ∨
          (firstLine w.Stdin = line ∧ line.getLast? ≠ some carriageReturn))) ∧
    (w.Stdin = [] ∨ 65536 ≤ (firstLine w.Stdin).length →
      o.reader w = .error "input scan err") := by
  have hM : MaxScanTokenSize = 65536 := rfl
  rw [reader_stdin_eq hpath]
  refine ⟨fun hne hlen => ?_, fun h => ?_⟩
  · have h0 : ¬ w.Stdin.length = 0 := fun h => hne (List.length_eq_zero.mp h)
    refine ⟨dropCR (firstLine w.Stdin), ?_, dropCR_cases _⟩
    simp only [scanSpec, h0, if_false, hM, hlen, if_true]
  · rcases h with h | h
    · simp [scanSpec, h]
    · have : ¬ (firstLine w.Stdin).length < 65536 := by omega
      unfold scanSpec
      rw [hM]
      split_ifs <;> rfl

theorem reader_stdin_line_witness :
    stdinOptions.InputPath = "-" ∧
    (exampleWorld [4, 13, 10, 6] echoEngine).Stdin ≠ [] ∧
    (firstLine (exampleWorld [4, 13, 10, 6] echoEngine).Stdin).length < 65536 ∧
    ∃ line, stdinOptions.reader (exampleWorld [4, 13, 10, 6] echoEngine) = .ok (.Stdin, line) ∧
      (firstLine (exampleWorld [4, 13, 10, 6] echoEngine).Stdin = line ++ [carriageReturn] ∨
        (firstLine (exampleWorld [4, 13, 10, 6] echoEngine).Stdin = line ∧
          line.getLast? ≠ some carriageReturn)) :=
  ⟨rfl, by decide, by decide,
    (reader_stdin_line (exampleWorld [4, 13, 10, 6] echoEngine) stdinOptions rfl).1
      (by decide) (by decide)⟩

/-- C7 fails as stated: on the input `a\r\n` the bytes before the first newline
are `a\r`, but `reader()` returns `a`; and on an input of 65536 bytes `a`, which
is not empty, `reader()` fails with `input scan err`. -/
theorem reader_stdin_counterexample :
    (firstLine [97, 13, 10] = [97, 13] ∧
      stdinOptions.reader (exampleWorld [97, 13, 10] echoEngine) = .ok (.Stdin, [97])) ∧
    ((List.replicate 65536 97 : Bytes) ≠ [] ∧
      stdinOptions.reader (exampleWorld (List.replicate 65536 97) echoEngine) =
        .error "input scan err") := by
  refine ⟨⟨by decide, rfl⟩, ?_, ?_⟩
  · intro h
    have := congrArg List.length h
    rw [List.length_replicate] at this
    exact absurd this (by decide)
  · have hlen : ¬ (firstLine (List.replicate 65536 97)).length < MaxScanTokenSize := by
      rw [firstLine_replicate _ _ (by decide), List.length_replicate]
      decide
    have hspec : scanSpec (exampleWorld (List.replicate 65536 97) echoEngine).Stdin = none := by
      show scanSpec (List.replicate 65536 97) = none
      unfold scanSpec
      rw [if_neg hlen]
      split_ifs <;> rfl
    rw [reader_stdin_eq rfl, hspec]

theorem reader_stdin_empty {w : World} {o : ApplyOptions} (hpath : o.InputPath = "-")
    (hstdin : w.Stdin = []) : o.reader w = .error "input scan err" := by
  rw [reader_stdin_eq hpath, hstdin]
  rfl

theorem Run_of_fetch_error {w : World} {o : ApplyOptions} {A : Bytes} {err : Error}
    (hfetch : w.GetGeneralResources (o.getCliRuntime w) = (A, some err)) (fuel : Nat) :
    o.Run w fuel =
      { trace := [.GetGeneralResources (o.getCliRuntime w),
          .Errorf ("get general resource err: " ++ err)],
        outcome := .Returned (some err) } := by
  simp [ApplyOptions.Run, hfetch]

theorem Run_of_reader_error {w : World} {o : ApplyOptions} {A : Bytes} {err : Error}
    (hfetch : w.GetGeneralResources (o.getCliRuntime w) = (A, none))
    (hread : o.reader w = .error err) (fuel : Nat) :
    o.Run w fuel =
      { trace := [.GetGeneralResources (o.getCliRuntime w), .reader,
          .Errorf ("read kcl code err: " ++ err)],
        outcome := .Returned (some err) } := by
  simp [ApplyOptions.Run, hfetch, hread]

/-- C3 (amended): with the input path `-` and an empty standard input,
`reader()` fails with the error `input scan err`; `Run` has called the cluster
fetch before, and when the fetch succeeded `Run` returns that error, having
called `reader()` once and neither the pipeline engine nor `Apply`. -/
theorem Run_empty_stdin (w : World) (o : ApplyOptions) (fuel : Nat)
    (hpath : o.InputPath = "-") (hstdin : w.Stdin = []) :
    o.reader w = .error "input scan err" ∧
    ∀ A, w.GetGeneralResources (o.getCliRuntime w) = (A, none) →
      o.Run w fuel =
        { trace := [.GetGeneralResources (o.getCliRuntime w), .reader,
            .Errorf "read kcl code err: input scan err"],
          outcome := .Returned (some "input scan err") } ∧
      ∀ ev ∈ (o.Run w fuel).trace, ev.isExecute = false ∧ ev.isApply = false := by
  have hr := reader_stdin_empty hpath hstdin
  refine ⟨hr, fun A hfetch => ?_⟩
  have hrun := Run_of_reader_error hfetch hr fuel
  refine ⟨hrun, fun ev hev => ?_⟩
  rw [hrun] at hev
  simp only [List.mem_cons, List.mem_singleton, List.not_mem_nil, or_false] at hev
  rcases hev with h | h | h <;> subst h <;> simp [Event.isExecute, Event.isApply]

theorem Run_empty_stdin_witness :
    stdinOptions.InputPath = "-" ∧ (exampleWorld [] echoEngine).Stdin = [] ∧
    stdinOptions.reader (exampleWorld [] echoEngine) = .error "input scan err" ∧
    (stdinOptions.Run (exampleWorld [] echoEngine) 9).outcome =
      .Returned (some "input scan err") :=
  ⟨rfl, rfl, (Run_empty_stdin (exampleWorld [] echoEngine) stdinOptions 9 rfl rfl).1,
    congrArg RunResult.outcome
      (((Run_empty_stdin (exampleWorld [] echoEngine) stdinOptions 9 rfl rfl).2
        [1, 2, 3] rfl).1)⟩

/-- C3 fails as stated: with the input path `-` and an empty standard input,
`Run` has called the cluster fetch when it returns the scan error; and when the
fetch fails, `Run` returns the error of the fetch, not the scan error. -/
theorem Run_empty_stdin_counterexample :
    (stdinOptions.InputPath = "-" ∧ (exampleWorld [] echoEngine).Stdin = [] ∧
      (stdinOptions.Run (exampleWorld [] echoEngine) 9).trace =
        [.GetGeneralResources (stdinOptions.getCliRuntime (exampleWorld [] echoEngine)),
          .reader, .Errorf "read kcl code err: input scan err"]) ∧
    (fetchFailsWorld.Stdin = [] ∧
      stdinOptions.Run fetchFailsWorld 9 =
        { trace := [.GetGeneralResources (stdinOptions.getCliRuntime fetchFailsWorld),
            .Errorf "get general resource err: unreachable"],
          outcome := .Returned (some "unreachable") }) := by
  refine ⟨⟨rfl, rfl, by decide⟩, rfl, by decide⟩

/-- C4 (amended): when the cluster fetch fails, `Run` returns its error; when
the reading of the function configuration fails, `Run` returns the error of the
read if the fetch succeeded, and the error of the fetch if the fetch failed;
when `Apply` is called and fails, `Run` returns its error. (An error of the
engine's `Execute` is not among these: it is logged only.) -/
theorem Run_error_of_failure (w : World) (o : ApplyOptions) (fuel : Nat) :
    (∀ A err, w.GetGeneralResources (o.getCliRuntime w) = (A, some err) →
      (o.Run w fuel).outcome = .Returned (some err)) ∧
    (∀ A fetchErr err, w.GetGeneralResources (o.getCliRuntime w) = (A, fetchErr) →
      o.reader w = .error err →
      (o.Run w fuel).outcome = .Returned (some (fetchErr.getD err))) ∧
    (∀ c f p err, Event.Apply c f p ∈ (o.Run w fuel).trace → w.Apply c f p = some err →
      (o.Run w fuel).outcome = .Returned (some err)) := by
  refine ⟨fun A err hfetch => ?_, fun A fetchErr err hfetch hread => ?_,
    fun c f p err hev happly => ?_⟩
  · rw [Run_of_fetch_error hfetch]
  · cases fetchErr with
    | some err' => rw [Run_of_fetch_error hfetch]; rfl
    | none => rw [Run_of_reader_error hfetch hread]; rfl
  · rw [(apply_mem_Run hev).2.2, happly]

theorem Run_error_of_failure_witness :
    (fetchFailsWorld.GetGeneralResources (fileOptions.getCliRuntime fetchFailsWorld) =
        ([1], some "unreachable") ∧
      (fileOptions.Run fetchFailsWorld 9).outcome = .Returned (some "unreachable")) ∧
    ((exampleWorld [] echoEngine).GetGeneralResources
        (stdinOptions.getCliRuntime (exampleWorld [] echoEngine)) = ([1, 2, 3], none) ∧
      stdinOptions.reader (exampleWorld [] echoEngine) = .error "input scan err" ∧
      (stdinOptions.Run (exampleWorld [] echoEngine) 9).outcome =
        .Returned (some ((none : Option Error).getD "input scan err"))) ∧
    (fetchFailsWorld.GetGeneralResources (stdinOptions.getCliRuntime fetchFailsWorld) =
        ([1], some "unreachable") ∧
      stdinOptions.reader fetchFailsWorld = .error "input scan err" ∧
      (stdinOptions.Run fetchFailsWorld 9).outcome =
        .Returned (some ((some "unreachable" : Option Error).getD "input scan err"))) ∧
    (Event.Apply (fileOptions.getCliRuntime applyFailsWorld) ⟨7⟩ [1, 2, 3, 8, 9] ∈
        (fileOptions.Run applyFailsWorld 9).trace ∧
      (fileOptions.Run applyFailsWorld 9).outcome = .Returned (some "rejected")) :=
  ⟨⟨rfl, (Run_error_of_failure fetchFailsWorld fileOptions 9).1 [1] "unreachable" rfl⟩,
    ⟨rfl, rfl, (Run_error_of_failure (exampleWorld [] echoEngine) stdinOptions 9).2.1
      [1, 2, 3] none "input scan err" rfl rfl⟩,
    ⟨rfl, rfl, (Run_error_of_failure fetchFailsWorld stdinOptions 9).2.1
      [1] (some "unreachable") "input scan err" rfl rfl⟩,
    ⟨by decide, (Run_error_of_failure applyFailsWorld fileOptions 9).2.2
      (fileOptions.getCliRuntime applyFailsWorld) ⟨7⟩ [1, 2, 3, 8, 9] "rejected"
      (by decide) rfl⟩⟩

/-- C4 fails as stated: the engine's `Execute` returns the error `boom` after
writing one byte, and `Run` returns nil, having applied that byte. -/
theorem Run_error_of_failure_counterexample :
    failingEngine ([1, 2, 3] ++ [8, 9]) 1 = .Return (some "boom") ∧
    fileOptions.Run (exampleWorld [] failingEngine) 9 =
      { trace := [.GetGeneralResources (fileOptions.getCliRuntime (exampleWorld [] failingEngine)),
          .reader, .Execute [1, 2, 3, 8, 9], .Write [1],
          .Errorf "pipeline execute err: boom", .Close,
          .Apply (fileOptions.getCliRuntime (exampleWorld [] failingEngine)) ⟨7⟩ [1]],
        outcome := .Returned none } := by
  refine ⟨rfl, by decide⟩

theorem step_of_read_error {w : World} {cli : KubeCliRuntime} {n : Bytes} {space : Nat}
    {s : State} {err : Error} (hmain : s.main = .ReadFrom) (hpend : s.pending = none)
    (hclosed : s.closed = some err) (herr : err ≠ EOF) :
    step w cli n space s =
      some { s with main := .Returned (some err),
                    trace := s.trace ++ [.Errorf ("io reader err: " ++ err)] } := by
  simp [step, hmain, hpend, hclosed, herr, afterReadFrom]

theorem Run_counts (w : World) (o : ApplyOptions) (fuel : Nat) :
    (o.Run w fuel).trace.countP Event.isFetch ≤ 1 ∧
    (o.Run w fuel).trace.countP Event.isReader ≤ 1 ∧
    (o.Run w fuel).trace.countP Event.isExecute ≤ 1 ∧
    (o.Run w fuel).trace.countP Event.isApply ≤ 1 := by
  rcases Run_cases w o fuel with ⟨A, err, _, hrun⟩ | ⟨A, err, _, _, hrun⟩ | ⟨A, B, h, s, _, _, hs, hrun⟩
  · rw [hrun]
    simp [List.countP_cons, Event.isFetch, Event.isReader, Event.isExecute, Event.isApply]
  · rw [hrun]
    simp [List.countP_cons, Event.isFetch, Event.isReader, Event.isExecute, Event.isApply]
  · rw [hrun]
    exact trace_counts (inv_reachable hs)

/-- C5: when the cluster fetch fails, `Run` returns exactly its error and the
only call made is the fetch; when the fetch succeeds and `reader()` fails, `Run`
returns exactly that error and the only calls made are the fetch and
`reader()`; when the read of the pipe reports an error other than the end of
the stream, `Run` returns exactly that error and the step adds no call of
`Apply`; and in every execution each of the fetch, `reader()`, the engine and
`Apply` is called at most once. -/
theorem Run_aborts_on_failure (w : World) (o : ApplyOptions) (fuel : Nat) :
    (∀ A err, w.GetGeneralResources (o.getCliRuntime w) = (A, some err) →
      o.Run w fuel =
        { trace := [.GetGeneralResources (o.getCliRuntime w),
            .Errorf ("get general resource err: " ++ err)],
          outcome := .Returned (some err) }) ∧
    (∀ A err, w.GetGeneralResources (o.getCliRuntime w) = (A, none) →
      o.reader w = .error err →
      o.Run w fuel =
        { trace := [.GetGeneralResources (o.getCliRuntime w), .reader,
            .Errorf ("read kcl code err: " ++ err)],
          outcome := .Returned (some err) }) ∧
    (∀ (n : Bytes) (space : Nat) (s : State) (err : Error),
      s.main = .ReadFrom → s.pending = none → s.closed = some err → err ≠ EOF →
      step w (o.getCliRuntime w) n space s =
        some { s with main := .Returned (some err),
                      trace := s.trace ++ [.Errorf ("io reader err: " ++ err)] }) ∧
    ((o.Run w fuel).trace.countP Event.isFetch ≤ 1 ∧
      (o.Run w fuel).trace.countP Event.isReader ≤ 1 ∧
      (o.Run w fuel).trace.countP Event.isExecute ≤ 1 ∧
      (o.Run w fuel).trace.countP Event.isApply ≤ 1) :=
  ⟨fun _ _ hfetch => Run_of_fetch_error hfetch fuel,
    fun _ _ hfetch hread => Run_of_reader_error hfetch hread fuel,
    fun _ _ _ _ hmain hpend hclosed herr => step_of_read_error hmain hpend hclosed herr,
    Run_counts w o fuel⟩

theorem Run_aborts_on_failure_witness :
    (fetchFailsWorld.GetGeneralResources (fileOptions.getCliRuntime fetchFailsWorld) =
        ([1], some "unreachable") ∧
      fileOptions.Run fetchFailsWorld 9 =
        { trace := [.GetGeneralResources (fileOptions.getCliRuntime fetchFailsWorld),
            .Errorf ("get general resource err: " ++ "unreachable")],
          outcome := .Returned (some "unreachable") }) ∧
    ((exampleWorld [] echoEngine).GetGeneralResources
        (stdinOptions.getCliRuntime (exampleWorld [] echoEngine)) = ([1, 2, 3], none) ∧
      stdinOptions.reader (exampleWorld [] echoEngine) = .error "input scan err" ∧
      stdinOptions.Run (exampleWorld [] echoEngine) 9 =
        { trace := [.GetGeneralResources (stdinOptions.getCliRuntime (exampleWorld [] echoEngine)),
            .reader, .Errorf ("read kcl code err: " ++ "input scan err")],
          outcome := .Returned (some "input scan err") }) ∧
    (brokenPipeState.main = .ReadFrom ∧ brokenPipeState.pending = none ∧
      brokenPipeState.closed = some "broken" ∧ "broken" ≠ EOF ∧
      step applyFailsWorld (fileOptions.getCliRuntime applyFailsWorld) [] 1 brokenPipeState =
        some { brokenPipeState with
          main := .Returned (some "broken"),
          trace := brokenPipeState.trace ++ [.Errorf ("io reader err: " ++ "broken")] }) :=
  ⟨⟨rfl, (Run_aborts_on_failure fetchFailsWorld fileOptions 9).1 [1] "unreachable" rfl⟩,
    ⟨rfl, rfl, (Run_aborts_on_failure (exampleWorld [] echoEngine) stdinOptions 9).2.1
      [1, 2, 3] "input scan err" rfl rfl⟩,
    ⟨rfl, rfl, rfl, by decide,
      (Run_aborts_on_failure applyFailsWorld fileOptions 9).2.2.1 [] 1 brokenPipeState
        "broken" rfl rfl rfl (by decide)⟩⟩

theorem writePayloads_trace {w : World} {cli : KubeCliRuntime} {n : Bytes} {s : State}
    (hs : Inv w cli n (setupTrace cli) s) : writePayloads s.trace = s.written := by
  rw [hs.trace_eq, hs.written_eq]
  simp only [writePayloads_append, writePayloads_engineEvents]
  have h1 : writePayloads (setupTrace cli) = [] := rfl
  have h2 : writePayloads [Event.Execute n] = [] := rfl
  rw [h1, h2]
  cases s.main with
  | ReadFrom => simp [writePayloads]
  | Returned r => simp [writePayloads_afterReadFrom]

theorem returned_state {w : World} {cli : KubeCliRuntime} {n : Bytes} {s : State}
    (hs : Inv w cli n (setupTrace cli) s) {r : Option Error} (hmain : s.main = .Returned r) :
    s.closed = some EOF ∧ Event.Close ∈ s.trace ∧ s.pending = none ∧ s.input = s.written ∧
      s.written = writePayloads s.trace := by
  obtain ⟨hcl, _⟩ := hs.main_ret r hmain
  obtain ⟨_, hpend, r', hpos, hr'⟩ := hs.closed_eof EOF hcl
  refine ⟨hcl, ?_, hpend, ?_, (writePayloads_trace hs).symm⟩
  · rw [hs.trace_eq]
    obtain ⟨m, hm⟩ : ∃ m, s.pos = m + 1 := ⟨s.pos - 1, by omega⟩
    rw [hm] at hr' ⊢
    simp only [Nat.add_sub_cancel] at hr'
    have : Event.Close ∈ actionEvents (w.Execute n m) := by
      rw [hr']
      cases r' <;> simp [actionEvents]
    simp [engineEvents, this]
  · have := hs.drained
    rw [hpend] at this
    simpa using this

/-- C2: when the fetch and the read succeeded and the engine's `Execute` returns
after finitely many actions, then with enough steps `Run` calls `Apply` with
exactly the bytes the engine wrote to the writer end, in the order written (the
concatenation of the payloads of the `Write` events); when those bytes are the
input stream `A ++ B` itself (an echoing engine), `Apply` receives `A ++ B`. In
every state of every execution, whatever the sizes of the reads, a payload
passed to `Apply` is made of those bytes. -/
theorem Run_applies_engine_output (w : World) (o : ApplyOptions) (A B : Bytes)
    (h : ReaderHandle) (k : Nat) (r : Option Error)
    (hfetch : w.GetGeneralResources (o.getCliRuntime w) = (A, none))
    (hread : o.reader w = .ok (h, B))
    (hret : ReturnsAt (w.Execute (A ++ B)) k r) :
    (∀ fuel, 2 * (k + 1) + 1 ≤ fuel →
      Event.Apply (o.getCliRuntime w) (o.getCliRuntime w).Flags
          (writePayloads (o.Run w fuel).trace) ∈ (o.Run w fuel).trace ∧
      writePayloads (o.Run w fuel).trace = writesBefore (w.Execute (A ++ B)) k ∧
      (writesBefore (w.Execute (A ++ B)) k = A ++ B →
        Event.Apply (o.getCliRuntime w) (o.getCliRuntime w).Flags (A ++ B) ∈
          (o.Run w fuel).trace)) ∧
    (∀ s, Reachable w (o.getCliRuntime w) (A ++ B) (setupTrace (o.getCliRuntime w)) s →
      ∀ c f p, Event.Apply c f p ∈ s.trace →
        p = writePayloads s.trace ∧ p = writesBefore (w.Execute (A ++ B)) k) := by
  have hall : ∀ s, Reachable w (o.getCliRuntime w) (A ++ B) (setupTrace (o.getCliRuntime w)) s →
      ∀ c f p, Event.Apply c f p ∈ s.trace →
        p = writePayloads s.trace ∧ p = writesBefore (w.Execute (A ++ B)) k := by
    intro s hs c f p hev
    have hinv := inv_reachable hs
    obtain ⟨_, _, hp, e, he⟩ := apply_mem_state hinv hev
    obtain ⟨_, _, _, hin, hwr⟩ := returned_state hinv he
    obtain ⟨_, _, hin', _, _⟩ := final_state hinv hret he
    exact ⟨by rw [hp, hin, hwr], by rw [hp, hin']⟩
  refine ⟨fun fuel hfuel => ?_, hall⟩
  have hrun := Run_eq_of_returnsAt hfetch hread hret hfuel
  have hpay : writePayloads (o.Run w fuel).trace = writesBefore (w.Execute (A ++ B)) k := by
    rw [hrun]
    simp only [writePayloads_append, writePayloads_engineEvents, writePayloads_afterReadFrom,
      writesBefore_succ_of_return hret.1]
    have h1 : writePayloads (setupTrace (o.getCliRuntime w)) = [] := rfl
    have h2 : writePayloads [Event.Execute (A ++ B)] = [] := rfl
    rw [h1, h2]
    simp
  have hmem : Event.Apply (o.getCliRuntime w) (o.getCliRuntime w).Flags
      (writesBefore (w.Execute (A ++ B)) k) ∈ (o.Run w fuel).trace := by
    rw [hrun]
    exact List.mem_append_right _ (apply_mem_afterReadFrom _ _ _)
  refine ⟨by rw [hpay]; exact hmem, hpay, fun hecho => ?_⟩
  rw [← hecho]
  exact hmem

theorem echoEngine_returnsAt (n : Bytes) : ReturnsAt (echoEngine n) 1 none := by
  refine ⟨rfl, fun j hj e => ?_⟩
  have : j = 0 := by omega
  subst this
  simp [echoEngine]

theorem Run_applies_engine_output_witness :
    ((exampleWorld [] echoEngine).GetGeneralResources
        (fileOptions.getCliRuntime (exampleWorld [] echoEngine)) = ([1, 2, 3], none) ∧
      fileOptions.reader (exampleWorld [] echoEngine) = .ok (.NewReader "f", [8, 9]) ∧
      ReturnsAt ((exampleWorld [] echoEngine).Execute ([1, 2, 3] ++ [8, 9])) 1 none) ∧
    Event.Apply (fileOptions.getCliRuntime (exampleWorld [] echoEngine))
        (fileOptions.getCliRuntime (exampleWorld [] echoEngine)).Flags ([1, 2, 3] ++ [8, 9]) ∈
      (fileOptions.Run (exampleWorld [] echoEngine) 5).trace :=
  ⟨⟨rfl, rfl, echoEngine_returnsAt _⟩,
    ((Run_applies_engine_output (exampleWorld [] echoEngine) fileOptions [1, 2, 3] [8, 9]
      (.NewReader "f") 1 none rfl rfl (echoEngine_returnsAt _)).1 5 (by decide)).2.2 rfl⟩

/-- C10: when the fetch and the read succeeded and the engine's `Execute`
returns an error, the error is logged, the writer end is closed all the same,
`Run` calls `Apply` with the bytes the engine wrote before it failed, and `Run`
returns what `Apply` returns (nil when `Apply` succeeds): the error of the
engine is not in the result. -/
theorem Run_ignores_pipeline_error (w : World) (o : ApplyOptions) (A B : Bytes)
    (h : ReaderHandle) (k : Nat) (err : Error) (fuel : Nat)
    (hfetch : w.GetGeneralResources (o.getCliRuntime w) = (A, none))
    (hread : o.reader w = .ok (h, B))
    (hret : ReturnsAt (w.Execute (A ++ B)) k (some err))
    (hfuel : 2 * (k + 1) + 1 ≤ fuel) :
    o.Run w fuel =
      { trace := setupTrace (o.getCliRuntime w) ++ [.Execute (A ++ B)] ++
          engineEvents (w.Execute (A ++ B)) k ++
          [.Errorf ("pipeline execute err: " ++ err), .Close] ++
          (afterReadFrom w (o.getCliRuntime w) none (writesBefore (w.Execute (A ++ B)) k)).1,
        outcome := .Returned (w.Apply (o.getCliRuntime w) (o.getCliRuntime w).Flags
          (writesBefore (w.Execute (A ++ B)) k)) } ∧
    Event.Apply (o.getCliRuntime w) (o.getCliRuntime w).Flags
      (writesBefore (w.Execute (A ++ B)) k) ∈ (o.Run w fuel).trace ∧
    (w.Apply (o.getCliRuntime w) (o.getCliRuntime w).Flags
        (writesBefore (w.Execute (A ++ B)) k) = none →
      (o.Run w fuel).outcome = .Returned none) := by
  have hrun := Run_eq_of_returnsAt hfetch hread hret hfuel
  have hrun' : o.Run w fuel =
      { trace := setupTrace (o.getCliRuntime w) ++ [.Execute (A ++ B)] ++
          engineEvents (w.Execute (A ++ B)) k ++
          [.Errorf ("pipeline execute err: " ++ err), .Close] ++
          (afterReadFrom w (o.getCliRuntime w) none (writesBefore (w.Execute (A ++ B)) k)).1,
        outcome := .Returned (w.Apply (o.getCliRuntime w) (o.getCliRuntime w).Flags
          (writesBefore (w.Execute (A ++ B)) k)) } := by
    rw [hrun, afterReadFrom_none_snd]
    simp [engineEvents, hret.1, actionEvents]
  refine ⟨hrun', ?_, fun happly => ?_⟩
  · rw [hrun']
    exact List.mem_append_right _ (apply_mem_afterReadFrom _ _ _)
  · rw [hrun', happly]

theorem failingEngine_returnsAt (n : Bytes) : ReturnsAt (failingEngine n) 1 (some "boom") := by
  refine ⟨rfl, fun j hj e => ?_⟩
  have : j = 0 := by omega
  subst this
  simp [failingEngine]

theorem Run_ignores_pipeline_error_witness :
    ((exampleWorld [] failingEngine).GetGeneralResources
        (fileOptions.getCliRuntime (exampleWorld [] failingEngine)) = ([1, 2, 3], none) ∧
      fileOptions.reader (exampleWorld [] failingEngine) = .ok (.NewReader "f", [8, 9]) ∧
      ReturnsAt ((exampleWorld [] failingEngine).Execute ([1, 2, 3] ++ [8, 9])) 1 (some "boom")) ∧
    (fileOptions.Run (exampleWorld [] failingEngine) 5).outcome = .Returned none :=
  ⟨⟨rfl, rfl, failingEngine_returnsAt _⟩,
    (Run_ignores_pipeline_error (exampleWorld [] failingEngine) fileOptions [1, 2, 3] [8, 9]
      (.NewReader "f") 1 "boom" 5 rfl rfl (failingEngine_returnsAt _) (by decide)).2.2 rfl⟩

theorem open_of_neverReturns {w : World} {cli : KubeCliRuntime} {n : Bytes} {s : State}
    (hs : Inv w cli n (setupTrace cli) s) (hnever : NeverReturns (w.Execute n)) :
    s.closed = none ∧ s.main = .ReadFrom ∧ ∀ c f p, Event.Apply c f p ∉ s.trace := by
  have hcl : s.closed = none := by
    cases hc : s.closed with
    | none => rfl
    | some e =>
      obtain ⟨_, _, r, _, hr⟩ := hs.closed_eof e hc
      exact absurd hr (hnever _ r)
  have hmain : s.main = .ReadFrom := by
    cases hm : s.main with
    | ReadFrom => rfl
    | Returned r =>
      have := (hs.main_ret r hm).1
      rw [hcl] at this
      cases this
  refine ⟨hcl, hmain, fun c f p hev => ?_⟩
  obtain ⟨_, _, _, r, hr⟩ := apply_mem_state hs hev
  rw [hmain] at hr
  cases hr

/-- C9: in every state of every execution of the two tasks of `Run`, whatever
the sizes of the reads: if `Apply` has been called or `Run` has returned, then
the writer end has been closed by `pw.Close()`, no written byte is left in the
pipe, and the buffer `input` holds every byte written, in order. If the engine's
`Execute` never returns, the writer end stays open, `Run` stays inside
`ReadFrom` and has not called `Apply`; and `Run`, whatever the number of steps
it is given, has neither returned nor called `Apply`. -/
theorem Apply_after_close (w : World) (o : ApplyOptions) (A B : Bytes) (h : ReaderHandle)
    (s : State)
    (hfetch : w.GetGeneralResources (o.getCliRuntime w) = (A, none))
    (hread : o.reader w = .ok (h, B))
    (hs : Reachable w (o.getCliRuntime w) (A ++ B) (setupTrace (o.getCliRuntime w)) s) :
    (((∃ c f p, Event.Apply c f p ∈ s.trace) ∨ (∃ r, s.main = .Returned r)) →
      s.closed = some EOF ∧ Event.Close ∈ s.trace ∧ s.pending = none ∧
      s.input = s.written ∧ s.written = writePayloads s.trace) ∧
    (NeverReturns (w.Execute (A ++ B)) →
      (s.closed = none ∧ s.main = .ReadFrom ∧ ∀ c f p, Event.Apply c f p ∉ s.trace) ∧
      ∀ fuel, (o.Run w fuel).outcome = .Blocked ∧
        ∀ c f p, Event.Apply c f p ∉ (o.Run w fuel).trace) := by
  have hinv := inv_reachable hs
  refine ⟨fun hor => ?_, fun hnever => ⟨open_of_neverReturns hinv hnever, fun fuel => ?_⟩⟩
  · have hret : ∃ r, s.main = .Returned r := by
      rcases hor with ⟨c, f, p, hev⟩ | hr
      · exact (apply_mem_state hinv hev).2.2.2
      · exact hr
    obtain ⟨r, hr⟩ := hret
    exact returned_state hinv hr
  · obtain ⟨t, ht, hrun⟩ := Run_reachable hfetch hread fuel
    obtain ⟨_, hmain, hno⟩ := open_of_neverReturns (inv_reachable ht) hnever
    rw [hrun]
    exact ⟨by simp [State.result, hmain], hno⟩

theorem stuckEngine_neverReturns (n : Bytes) : NeverReturns (stuckEngine n) := by
  intro k e
  unfold stuckEngine
  split <;> simp

theorem Apply_after_close_witness :
    (((exampleWorld [] echoEngine).GetGeneralResources
          (fileOptions.getCliRuntime (exampleWorld [] echoEngine)) = ([1, 2, 3], none) ∧
        fileOptions.reader (exampleWorld [] echoEngine) = .ok (.NewReader "f", [8, 9]) ∧
        (runPipe (exampleWorld [] echoEngine)
          (fileOptions.getCliRuntime (exampleWorld [] echoEngine)) ([1, 2, 3] ++ [8, 9]) 9
          (initState ([1, 2, 3] ++ [8, 9])
            (setupTrace (fileOptions.getCliRuntime (exampleWorld [] echoEngine))))).main =
          .Returned none) ∧
      (runPipe (exampleWorld [] echoEngine)
        (fileOptions.getCliRuntime (exampleWorld [] echoEngine)) ([1, 2, 3] ++ [8, 9]) 9
        (initState ([1, 2, 3] ++ [8, 9])
          (setupTrace (fileOptions.getCliRuntime (exampleWorld [] echoEngine))))).closed =
        some EOF) ∧
    (NeverReturns ((exampleWorld [] stuckEngine).Execute ([1, 2, 3] ++ [8, 9])) ∧
      (fileOptions.Run (exampleWorld [] stuckEngine) 1000).outcome = .Blocked) :=
  ⟨⟨⟨rfl, rfl, by decide⟩,
      ((Apply_after_close (exampleWorld [] echoEngine) fileOptions [1, 2, 3] [8, 9]
        (.NewReader "f") _ rfl rfl (runPipe_reachable 9 Reachable.init)).1
        (Or.inr ⟨none, by decide⟩)).1⟩,
    ⟨stuckEngine_neverReturns _,
      (((Apply_after_close (exampleWorld [] stuckEngine) fileOptions [1, 2, 3] [8, 9]
        (.NewReader "f") _ rfl rfl Reachable.init).2 (stuckEngine_neverReturns _)).2 1000).1⟩⟩

end KubectlKcl
